import Mathlib

/- Verification of the reconciliation, projection, export and persistence logic
of the maya_batch_group_exporter tool. Python strings are modelled as Lean
strings (sequences of characters); the Maya scene is modelled as a record of
the object-set names it owns, other object names, a membership map and a flag
telling whether enumeration succeeds. All definitions follow the Python source
(validators.py, set_manager.py, data_manager.py, ui/widgets/tree_view.py,
exporters/fbx_exporter.py, exporters/export_service.py, persistence.py). -/

/-! ## Decimal rendering of naturals (Python str(n) for the collision counter) -/

def digitChar10 (d : Nat) : Char := Char.ofNat (48 + d)

def natToStrCore : Nat → Nat → List Char → List Char
  | 0, _, acc => acc
  | fuel+1, n, acc =>
    if n < 10 then digitChar10 n :: acc
    else natToStrCore fuel (n / 10) (digitChar10 (n % 10) :: acc)

def natToStr (n : Nat) : String := ⟨natToStrCore (n+1) n []⟩

/-! ## Name sanitation: validators.py, NameValidator -/

/-- The character class of INVALID_CHARS_PATTERN: angle brackets, colon, double
quote, slashes, pipe, question mark, star, and control characters 0x00-0x1f. -/
def isInvalidChar (c : Char) : Bool :=
  c = '<' || c = '>' || c = ':' || c = '\"' || c = '/' || c = '\\' ||
  c = '|' || c = '?' || c = '*' || decide (c.toNat ≤ 31)

/-- One pass of Python str.replace applied to a double underscore: scan left to
right, replace each non-overlapping occurrence of two underscores by one. -/
def replaceDoubleUnderscore : List Char → List Char
  | '_' :: '_' :: rest => '_' :: replaceDoubleUnderscore rest
  | c :: rest => c :: replaceDoubleUnderscore rest
  | [] => []

/-- Whether the list holds two adjacent underscores (Python "__" in s). -/
def hasDoubleUnderscore : List Char → Bool
  | '_' :: '_' :: _ => true
  | _ :: rest => hasDoubleUnderscore rest
  | [] => false

/-- The while loop of sanitize_for_maya_name, with explicit fuel: each
iteration strictly shrinks the list, so fuel = length is enough. -/
def collapseUnderscores : Nat → List Char → List Char
  | 0, s => s
  | fuel+1, s =>
    if hasDoubleUnderscore s then collapseUnderscores fuel (replaceDoubleUnderscore s) else s

/-- NameValidator.sanitize_for_maya_name: replace spaces with underscores,
replace invalid characters with underscores, put an underscore in front when
the result starts with a digit, then collapse repeated underscores. -/
def sanitize_for_maya_name (name : String) : String :=
  let s1 := name.data.map (fun c => if c = ' ' then '_' else c)
  let s2 := s1.map (fun c => if isInvalidChar c then '_' else c)
  let s3 := match s2 with
    | [] => ([] : List Char)
    | c :: rest => if c.isDigit then '_' :: c :: rest else c :: rest
  ⟨collapseUnderscores s3.length s3⟩

/-- Python str.strip: drop whitespace from both ends. -/
def pyStrip (s : String) : String :=
  ⟨((s.data.dropWhile Char.isWhitespace).reverse.dropWhile Char.isWhitespace).reverse⟩

/-- NameValidator.validate_group_name: some stripped-name when valid, none when
a ValidationError is raised (empty, whitespace-only, too long, or holding an
invalid character). -/
def validate_group_name (name : String) : Option String :=
  if name.data.isEmpty then none
  else
    let stripped := pyStrip name
    if stripped.data.isEmpty then none
    else if 255 < stripped.data.length then none
    else if stripped.data.any isInvalidChar then none
    else some stripped

/-! ## The Maya scene model and set_manager.py -/

/-- The Scene Store: object-set names (in enumeration order), other object
names, per-set membership, and whether enumeration (cmds.ls) succeeds. -/
structure Scene where
  sets : List String
  nonSets : List String
  members : String → List String
  enumOk : Bool

/-- maya_facade object_exists: any object of the scene has this name. -/
def object_exists (sc : Scene) (name : String) : Bool :=
  sc.sets.contains name || sc.nonSets.contains name

def SET_PREFIX : String := "batchExport_"

/-- Python s.startswith(p). -/
def pyStartsWith (p s : String) : Bool := p.data.isPrefixOf s.data

/-- SetManager.list_export_sets: list the objectSet names and keep those
starting with SET_PREFIX; if enumeration fails the error is caught and the
empty list is returned. -/
def list_export_sets (sc : Scene) : List String :=
  if sc.enumOk then (sc.sets.filter (fun s => pyStartsWith SET_PREFIX s)) else []

/-- SetManager.create_set_name: prefix plus sanitized display name. -/
def create_set_name (group_name : String) : String :=
  SET_PREFIX ++ sanitize_for_maya_name group_name

/-- How many object names exist in the scene. -/
def sceneNameCount (sc : Scene) : Nat := sc.sets.length + sc.nonSets.length

/-- The while loop of get_unique_set_name: starting at counter c, find the
first counter whose suffixed name is free, with explicit fuel. -/
def findFreeCounter (sc : Scene) (set_name : String) : Nat → Nat → Option Nat
  | 0, _ => none
  | fuel+1, c =>
    if object_exists sc (set_name ++ "_" ++ natToStr c) then
      findFreeCounter sc set_name fuel (c+1)
    else some c

/-- SetManager.get_unique_set_name: the sanitized prefixed candidate when
free, otherwise the candidate suffixed with the first free counter from 1.
The fuel sceneNameCount+1 always suffices (lemma findFreeCounter_total); the
fallback branch is dead code. -/
def get_unique_set_name (sc : Scene) (desired_name : String) : String :=
  let set_name := create_set_name desired_name
  if object_exists sc set_name then
    match findFreeCounter sc set_name (sceneNameCount sc + 1) 1 with
    | some c => set_name ++ "_" ++ natToStr c
    | none => set_name
  else set_name

/-! ## Lemmas: the decimal rendering is injective -/

def strVal : List Char → Nat → Nat
  | [], v => v
  | c :: cs, v => strVal cs (v * 10 + (c.toNat - 48))

theorem strVal_append (xs ys : List Char) (v : Nat) :
    strVal (xs ++ ys) v = strVal ys (strVal xs v) := by
  induction xs generalizing v with
  | nil => simp [strVal]
  | cons c cs ih => simp [strVal, ih]

theorem natToStrCore_append (fuel n : Nat) (acc : List Char) :
    natToStrCore fuel n acc = natToStrCore fuel n [] ++ acc := by
  induction fuel generalizing n acc with
  | zero => simp [natToStrCore]
  | succ fuel ih =>
    by_cases h : n < 10
    · simp [natToStrCore, h]
    · simp only [natToStrCore, if_neg h]
      rw [ih (n / 10) (digitChar10 (n % 10) :: acc), ih (n / 10) [digitChar10 (n % 10)]]
      simp

theorem digitChar10_toNat (n : Nat) (h : n < 10) : (digitChar10 n).toNat = 48 + n := by
  interval_cases n <;> decide

theorem strVal_natToStrCore (fuel : Nat) : ∀ n v, n < fuel →
    strVal (natToStrCore fuel n []) v = v * 10 ^ (natToStrCore fuel n []).length + n := by
  induction fuel with
  | zero => intro n v h; omega
  | succ fuel ih =>
    intro n v h
    by_cases h10 : n < 10
    · simp [natToStrCore, h10, strVal, digitChar10_toNat n h10]
    · have hdiv : n / 10 < fuel := by omega
      have hmod : n % 10 < 10 := by omega
      simp only [natToStrCore, if_neg h10]
      rw [natToStrCore_append fuel (n / 10) [digitChar10 (n % 10)]]
      rw [strVal_append, List.length_append, List.length_cons, List.length_nil]
      rw [ih (n / 10) v hdiv]
      simp only [strVal, digitChar10_toNat (n % 10) hmod]
      have hx : (48 + n % 10) - 48 = n % 10 := by omega
      rw [hx, pow_succ]
      have hnm : n / 10 * 10 + n % 10 = n := by omega
      generalize (10 : Nat) ^ (natToStrCore fuel (n / 10) []).length = L
      ring_nf
      omega

theorem natToStr_inj {a b : Nat} (h : natToStr a = natToStr b) : a = b := by
  have ha := strVal_natToStrCore (a+1) a 0 (by omega)
  have hb := strVal_natToStrCore (b+1) b 0 (by omega)
  have hd : (natToStr a).data = (natToStr b).data := by rw [h]
  simp only [natToStr] at hd
  rw [hd] at ha
  simp only [Nat.zero_mul, Nat.zero_add] at ha hb
  omega

/-! ## Lemmas: the unique-name search always finds a free name -/

theorem str_data_inj {s t : String} (h : s.data = t.data) : s = t := by
  cases s; cases t; simp_all

theorem suffix_name_inj (base : String) {a b : Nat}
    (h : base ++ "_" ++ natToStr a = base ++ "_" ++ natToStr b) : a = b := by
  apply natToStr_inj
  apply str_data_inj
  have hd := congrArg String.data h
  rw [String.data_append, String.data_append, String.data_append, String.data_append] at hd
  exact List.append_cancel_left hd

theorem object_exists_iff_mem (sc : Scene) (x : String) :
    object_exists sc x = true ↔ x ∈ sc.sets ++ sc.nonSets := by
  simp [object_exists]

/-- Pigeonhole: among sceneNameCount+1 consecutive counters at least one
suffixed name is not an object of the scene. -/
theorem exists_free_suffix (sc : Scene) (base : String) (c : Nat) :
    ∃ j, j < sceneNameCount sc + 1 ∧
      object_exists sc (base ++ "_" ++ natToStr (c + j)) = false := by
  by_contra hcon
  push_neg at hcon
  have htrue : ∀ j, j < sceneNameCount sc + 1 →
      object_exists sc (base ++ "_" ++ natToStr (c + j)) = true := by
    intro j hj
    have := hcon j hj
    simpa using this
  have hmem : ∀ j ∈ Finset.range (sceneNameCount sc + 1),
      (base ++ "_" ++ natToStr (c + j)) ∈ (sc.sets ++ sc.nonSets).toFinset := by
    intro j hj
    rw [List.mem_toFinset]
    exact (object_exists_iff_mem sc _).mp (htrue j (Finset.mem_range.mp hj))
  have hinj : Set.InjOn (fun j => base ++ "_" ++ natToStr (c + j))
      (Finset.range (sceneNameCount sc + 1)) := by
    intro a _ b _ hab
    have := suffix_name_inj base hab
    omega
  have hcard := Finset.card_le_card_of_injOn _ hmem hinj
  have hlen := List.toFinset_card_le (sc.sets ++ sc.nonSets)
  rw [Finset.card_range] at hcard
  rw [List.length_append] at hlen
  have : sceneNameCount sc = sc.sets.length + sc.nonSets.length := rfl
  omega

/-- findFreeCounter is correct: when a free counter lies within the fuel
window, it returns the smallest free counter at or after the start. -/
theorem findFreeCounter_spec (sc : Scene) (base : String) : ∀ fuel c,
    (∃ j, j < fuel ∧ object_exists sc (base ++ "_" ++ natToStr (c + j)) = false) →
    ∃ n, findFreeCounter sc base fuel c = some n ∧ c ≤ n ∧
      object_exists sc (base ++ "_" ++ natToStr n) = false ∧
      ∀ m, c ≤ m → m < n → object_exists sc (base ++ "_" ++ natToStr m) = true := by
  intro fuel
  induction fuel with
  | zero => intro c ⟨j, hj, _⟩; omega
  | succ fuel ih =>
    intro c ⟨j, hj, hfree⟩
    by_cases hc : object_exists sc (base ++ "_" ++ natToStr c) = true
    · have hj0 : j ≠ 0 := by
        intro h0
        rw [h0] at hfree
        simp at hfree
        rw [hfree] at hc
        exact absurd hc (by simp)
      obtain ⟨j', rfl⟩ : ∃ j', j = j' + 1 := ⟨j - 1, by omega⟩
      have hstep : ∃ j, j < fuel ∧
          object_exists sc (base ++ "_" ++ natToStr (c + 1 + j)) = false := by
        refine ⟨j', by omega, ?_⟩
        have : c + 1 + j' = c + (j' + 1) := by omega
        rw [this]
        exact hfree
      obtain ⟨n, heq, hle, hfr, hmin⟩ := ih (c + 1) hstep
      refine ⟨n, ?_, by omega, hfr, ?_⟩
      · simp only [findFreeCounter, if_pos hc]
        exact heq
      · intro m hcm hmn
        rcases Nat.eq_or_lt_of_le hcm with hme | hlt
        · rw [← hme]; exact hc
        · exact hmin m (by omega) hmn
    · have hcf : object_exists sc (base ++ "_" ++ natToStr c) = false := by
        revert hc; cases object_exists sc (base ++ "_" ++ natToStr c) <;> simp
      refine ⟨c, ?_, Nat.le_refl c, hcf, fun m h1 h2 => by omega⟩
      simp only [findFreeCounter, hcf]
      simp

/-- The fuel used by get_unique_set_name always suffices. -/
theorem findFreeCounter_total (sc : Scene) (base : String) (c : Nat) :
    ∃ n, findFreeCounter sc base (sceneNameCount sc + 1) c = some n ∧ c ≤ n ∧
      object_exists sc (base ++ "_" ++ natToStr n) = false ∧
      ∀ m, c ≤ m → m < n → object_exists sc (base ++ "_" ++ natToStr m) = true :=
  findFreeCounter_spec sc base (sceneNameCount sc + 1) c (exists_free_suffix sc base c)

/-- The name returned by get_unique_set_name is never an existing object. -/
theorem get_unique_set_name_free (sc : Scene) (d : String) :
    object_exists sc (get_unique_set_name sc d) = false := by
  unfold get_unique_set_name
  by_cases hc : object_exists sc (create_set_name d) = true
  · obtain ⟨n, heq, _, hfr, _⟩ := findFreeCounter_total sc (create_set_name d) 1
    rw [if_pos hc, heq]
    exact hfr
  · have : object_exists sc (create_set_name d) = false := by
      revert hc; cases object_exists sc (create_set_name d) <;> simp
    rw [if_neg (by simp [this])]
    exact this

theorem replaceDoubleUnderscore_ne_nil (l : List Char) (h : l ≠ []) :
    replaceDoubleUnderscore l ≠ [] := by
  rw [replaceDoubleUnderscore.eq_def]
  split <;> simp_all

theorem collapseUnderscores_ne_nil : ∀ fuel (l : List Char), l ≠ [] →
    collapseUnderscores fuel l ≠ [] := by
  intro fuel
  induction fuel with
  | zero => intro l h; simpa [collapseUnderscores] using h
  | succ fuel ih =>
    intro l h
    simp only [collapseUnderscores]
    split
    · exact ih _ (replaceDoubleUnderscore_ne_nil l h)
    · exact h

theorem sanitize_eq_empty_iff (s : String) :
    sanitize_for_maya_name s = "" ↔ s = "" := by
  constructor
  · intro h
    by_contra hs
    have hd : s.data ≠ [] := by
      intro hnil
      exact hs (str_data_inj hnil)
    rcases hne : s.data with _ | ⟨c, rest⟩
    · exact hd hne
    · have hcons : sanitize_for_maya_name s ≠ "" := by
        unfold sanitize_for_maya_name
        rw [hne]
        simp only [List.map]
        intro hcontra
        have hdata := congrArg String.data hcontra
        refine collapseUnderscores_ne_nil _ _ ?_ hdata
        (repeat' split) <;> simp
      exact hcons h
  · intro h
    rw [h]
    rfl

/-- C4 counterexample: the empty display name sanitizes to the empty string,
and the caller create_set_name resolves it to the bare SET_PREFIX — no
caller-supplied fallback token is substituted anywhere. -/
theorem sanitize_no_fallback_counterexample :
    sanitize_for_maya_name "" = "" ∧ create_set_name "" = "batchExport_" ∧
    create_set_name "" = SET_PREFIX := by decide

/-- C4 (amended): sanitize_for_maya_name is a total deterministic function (a
Lean function of the input string alone); its result is empty exactly for the
empty input, and the caller create_set_name applies no fallback token: it
returns SET_PREFIX concatenated with the sanitized result as is. -/
theorem sanitize_total_no_fallback (s : String) :
    create_set_name s = SET_PREFIX ++ sanitize_for_maya_name s ∧
    (sanitize_for_maya_name s = "" ↔ s = "") :=
  ⟨rfl, sanitize_eq_empty_iff s⟩

/-- C10: for every (finite) scene, get_unique_set_name terminates and returns
a name that does not exist in the scene: the prefixed sanitized candidate when
that is free, otherwise the candidate suffixed with the smallest free counter
n ≥ 1. -/
theorem get_unique_set_name_spec (sc : Scene) (desired : String) :
    object_exists sc (get_unique_set_name sc desired) = false ∧
    (if object_exists sc (create_set_name desired) = false then
        get_unique_set_name sc desired = create_set_name desired
     else ∃ n, 1 ≤ n ∧
        get_unique_set_name sc desired = create_set_name desired ++ "_" ++ natToStr n ∧
        object_exists sc (create_set_name desired ++ "_" ++ natToStr n) = false ∧
        ∀ m, 1 ≤ m → m < n →
          object_exists sc (create_set_name desired ++ "_" ++ natToStr m) = true) := by
  refine ⟨get_unique_set_name_free sc desired, ?_⟩
  by_cases hc : object_exists sc (create_set_name desired) = false
  · rw [if_pos hc]
    unfold get_unique_set_name
    rw [if_neg (by simp [hc])]
  · rw [if_neg hc]
    have hct : object_exists sc (create_set_name desired) = true := by
      revert hc; cases object_exists sc (create_set_name desired) <;> simp
    obtain ⟨n, heq, hle, hfr, hmin⟩ := findFreeCounter_total sc (create_set_name desired) 1
    refine ⟨n, hle, ?_, hfr, hmin⟩
    unfold get_unique_set_name
    rw [if_pos hct, heq]

/-! ## data_manager.py: the reconciler state, sync, and operations -/

structure ExportGroup where
  name : String
  set_name : String
deriving DecidableEq

/-- Python dict-key construction: iterate in order, a key already seen is not
inserted again (first occurrence wins), as in the groups_dict loop of
sync_from_scene. -/
def dedupKeys : List String → List String → List String
  | _, [] => []
  | seen, k :: rest =>
    if seen.contains k then dedupKeys seen rest
    else k :: dedupKeys (seen ++ [k]) rest

/-- The keys of the groups_dict built by sync_from_scene: the enumerated
export sets that exist as objects, in first-occurrence order. -/
def groupsDictKeys (sc : Scene) : List String :=
  dedupKeys [] ((list_export_sets sc).filter (fun s => object_exists sc s))

/-- The group record built for one set name: the display name is the set name
with SET_PREFIX stripped (set_name[len(SET_PREFIX):]). -/
def mkGroup (set_name : String) : ExportGroup :=
  ⟨⟨set_name.data.drop SET_PREFIX.data.length⟩, set_name⟩

/-- The group_order part of DataManager.sync_from_scene: keys missing from the
order are appended at the end in reported order, then entries whose set is no
longer reported are dropped. -/
def sync_order (order : List String) (sc : Scene) : List String :=
  let keys := groupsDictKeys sc
  let order1 := order ++ keys.filter (fun s => !order.contains s)
  order1.filter (fun s => keys.contains s)

/-- The DataManager state: the locally owned order, the rebuilt group list,
and the scene. -/
structure DMState where
  group_order : List String
  export_groups : List ExportGroup
  scene : Scene

/-- DataManager.sync_from_scene: recompute group_order against the scene and
rebuild export_groups in that order. -/
def sync_from_scene (st : DMState) : DMState :=
  let order1 := sync_order st.group_order st.scene
  { st with group_order := order1, export_groups := order1.map mkGroup }

/-! Scene Store effects of the set_manager operations. -/

def scene_create_set (sc : Scene) (name : String) : Scene :=
  { sc with sets := sc.sets ++ [name],
            members := fun s => if s = name then [] else sc.members s }

def scene_delete_object (sc : Scene) (name : String) : Scene :=
  { sc with sets := sc.sets.filter (fun s => s ≠ name),
            nonSets := sc.nonSets.filter (fun s => s ≠ name) }

def scene_rename_object (sc : Scene) (old_name new_name : String) : Scene :=
  { sc with sets := sc.sets.map (fun s => if s = old_name then new_name else s),
            nonSets := sc.nonSets.map (fun s => if s = old_name then new_name else s),
            members := fun s => if s = new_name then sc.members old_name else sc.members s }

def scene_add_to_set (sc : Scene) (objects : List String) (set_name : String) : Scene :=
  { sc with members := fun s => if s = set_name then sc.members s ++ objects else sc.members s }

/-- Python "sub in s" for character lists. -/
def hasSub (sub : List Char) : List Char → Bool
  | [] => sub.isPrefixOf []
  | c :: rest => sub.isPrefixOf (c :: rest) || hasSub sub rest

/-- The characters before the first occurrence of sub (s.split(sub)[0]). -/
def takeBeforeSub (sub : List Char) : List Char → List Char
  | [] => []
  | c :: rest => if sub.isPrefixOf (c :: rest) then [] else c :: takeBeforeSub sub rest

/-- SetManager.get_set_objects member cleanup: a member holding a vertex-range
marker is cut before it. -/
def clean_member (m : String) : String :=
  if hasSub ".vtx[".data m.data then ⟨takeBeforeSub ".vtx[".data m.data⟩ else m

/-- SetManager.get_set_objects (existence is checked by every caller first). -/
def get_set_objects (sc : Scene) (set_name : String) : List String :=
  (sc.members set_name).map clean_member

/-- DataManager.add_export_group: validate, create a set under a fresh unique
name, resync; a ValidationError leaves the state untouched. -/
def add_export_group (st : DMState) (name : String) : DMState :=
  match validate_group_name name with
  | none => st
  | some vname =>
    let set_name := get_unique_set_name st.scene vname
    sync_from_scene { st with scene := scene_create_set st.scene set_name }

/-- DataManager.remove_export_group: delete the backing set and resync; a
failed deletion (set absent) returns without syncing; a falsy set_name skips
deletion but still syncs. -/
def remove_export_group (st : DMState) (index : Nat) : DMState :=
  if index < st.export_groups.length then
    let group := st.export_groups.getD index ⟨"", ""⟩
    if group.set_name ≠ "" then
      if object_exists st.scene group.set_name then
        sync_from_scene { st with scene := scene_delete_object st.scene group.set_name }
      else st
    else sync_from_scene st
  else st

/-- DataManager.update_export_group: on rename, SetManager.rename_set computes
a fresh unique set name from the new display name and physically renames when
it differs from the old name; then resync. -/
def update_export_group (st : DMState) (index : Nat) (name : Option String) : DMState :=
  if index < st.export_groups.length then
    let group := st.export_groups.getD index ⟨"", ""⟩
    if group.set_name = "" || !object_exists st.scene group.set_name then st
    else
      match name with
      | none => sync_from_scene st
      | some nm =>
        match validate_group_name nm with
        | none => st
        | some vname =>
          let new_set_name := get_unique_set_name st.scene vname
          if new_set_name ≠ group.set_name then
            sync_from_scene
              { st with scene := scene_rename_object st.scene group.set_name new_set_name }
          else sync_from_scene st
  else st

/-- DataManager.duplicate_export_group: read the cleaned members, create a set
named after the original display name with "_copy" added, copy the members,
resync. -/
def duplicate_export_group (st : DMState) (index : Nat) : DMState :=
  if index < st.export_groups.length then
    let original := st.export_groups.getD index ⟨"", ""⟩
    if original.set_name = "" || !object_exists st.scene original.set_name then st
    else
      let objects := get_set_objects st.scene original.set_name
      let new_set_name := get_unique_set_name st.scene (original.name ++ "_copy")
      let sc1 := scene_create_set st.scene new_set_name
      sync_from_scene { st with scene := scene_add_to_set sc1 objects new_set_name }
  else st

/-- The simultaneous swap of two entries (Python tuple assignment). -/
def listSwap (l : List String) (i j : Nat) : List String :=
  (l.set i (l.getD j "")).set j (l.getD i "")

/-- DataManager.move_group_up: swap with the previous entry; no-op at the top
boundary or out of range. -/
def move_group_up (st : DMState) (index : Nat) : DMState :=
  if index = 0 || st.group_order.length ≤ index then st
  else sync_from_scene { st with group_order := listSwap st.group_order index (index - 1) }

/-- DataManager.move_group_down: swap with the next entry; no-op at the bottom
boundary. -/
def move_group_down (st : DMState) (index : Nat) : DMState :=
  if st.group_order.length - 1 ≤ index then st
  else sync_from_scene { st with group_order := listSwap st.group_order index (index + 1) }

/-- One user-level reconciler call. -/
inductive DMOp where
  | addGroup (name : String)
  | removeGroup (index : Nat)
  | renameGroup (index : Nat) (name : String)
  | dupGroup (index : Nat)
  | moveUp (index : Nat)
  | moveDown (index : Nat)

def applyOp (st : DMState) : DMOp → DMState
  | .addGroup name => add_export_group st name
  | .removeGroup i => remove_export_group st i
  | .renameGroup i nm => update_export_group st i (some nm)
  | .dupGroup i => duplicate_export_group st i
  | .moveUp i => move_group_up st i
  | .moveDown i => move_group_down st i

def runOps (st : DMState) (ops : List DMOp) : DMState := ops.foldl applyOp st

/-! ## Lemmas about sync_from_scene -/

theorem mem_dedupKeys : ∀ (l seen : List String) (a : String),
    a ∈ dedupKeys seen l ↔ (a ∈ l ∧ a ∉ seen) := by
  intro l
  induction l with
  | nil => intro seen a; simp [dedupKeys]
  | cons k rest ih =>
    intro seen a
    by_cases hk : seen.contains k = true
    · rw [dedupKeys, if_pos hk]
      rw [ih seen a]
      constructor
      · rintro ⟨h1, h2⟩
        exact ⟨List.mem_cons_of_mem k h1, h2⟩
      · rintro ⟨h1, h2⟩
        rcases List.mem_cons.mp h1 with rfl | h1'
        · exact absurd (by simpa using hk) h2
        · exact ⟨h1', h2⟩
    · rw [dedupKeys, if_neg hk]
      rw [List.mem_cons, ih (seen ++ [k]) a]
      constructor
      · rintro (rfl | ⟨h1, h2⟩)
        · refine ⟨List.mem_cons_self a rest, ?_⟩
          intro hmem
          exact hk (by simpa using hmem)
        · refine ⟨List.mem_cons_of_mem k h1, ?_⟩
          intro hmem
          exact h2 (by simp [hmem])
      · rintro ⟨h1, h2⟩
        rcases List.mem_cons.mp h1 with rfl | h1'
        · exact Or.inl rfl
        · by_cases hak : a = k
          · exact Or.inl hak
          · exact Or.inr ⟨h1', by simp [h2, hak]⟩

theorem dedupKeys_nodup : ∀ (l seen : List String), (dedupKeys seen l).Nodup := by
  intro l
  induction l with
  | nil => intro seen; simp [dedupKeys]
  | cons k rest ih =>
    intro seen
    by_cases hk : seen.contains k = true
    · rw [dedupKeys, if_pos hk]
      exact ih seen
    · rw [dedupKeys, if_neg hk]
      refine List.Nodup.cons ?_ (ih (seen ++ [k]))
      intro hmem
      have := (mem_dedupKeys rest (seen ++ [k]) k).mp hmem
      exact this.2 (by simp)

theorem dedupKeys_eq_self : ∀ (l seen : List String), l.Nodup →
    (∀ a ∈ l, a ∉ seen) → dedupKeys seen l = l := by
  intro l
  induction l with
  | nil => intro seen _ _; simp [dedupKeys]
  | cons k rest ih =>
    intro seen hnd hdisj
    have hk : ¬ seen.contains k = true := by
      intro hc
      exact hdisj k (List.mem_cons_self k rest) (by simpa using hc)
    rw [dedupKeys, if_neg hk]
    congr 1
    refine ih (seen ++ [k]) hnd.of_cons ?_
    intro a ha hmem
    rcases List.mem_append.mp hmem with h1 | h1
    · exact hdisj a (List.mem_cons_of_mem k ha) h1
    · have : a = k := by simpa using h1
      subst this
      exact (List.nodup_cons.mp hnd).1 ha

theorem mem_list_export_sets_sets {sc : Scene} {a : String}
    (h : a ∈ list_export_sets sc) : a ∈ sc.sets := by
  unfold list_export_sets at h
  split at h
  · exact (List.mem_filter.mp h).1
  · simp at h

theorem mem_groupsDictKeys (sc : Scene) (a : String) :
    a ∈ groupsDictKeys sc ↔ a ∈ list_export_sets sc := by
  unfold groupsDictKeys
  rw [mem_dedupKeys]
  simp only [List.not_mem_nil, not_false_iff, and_true]
  rw [List.mem_filter]
  constructor
  · exact fun h => h.1
  · intro h
    refine ⟨h, ?_⟩
    have := mem_list_export_sets_sets h
    simp [object_exists, this]

theorem groupsDictKeys_nodup (sc : Scene) : (groupsDictKeys sc).Nodup :=
  dedupKeys_nodup _ _

theorem sync_order_eq (order : List String) (sc : Scene) :
    sync_order order sc =
      order.filter (fun s => (groupsDictKeys sc).contains s) ++
      (groupsDictKeys sc).filter (fun s => !order.contains s) := by
  unfold sync_order
  rw [List.filter_append]
  congr 1
  apply List.filter_eq_self.mpr
  intro a ha
  have h1 := (List.mem_filter.mp ha).1
  simp [h1]

theorem mem_sync_order (order : List String) (sc : Scene) (a : String) :
    a ∈ sync_order order sc ↔ a ∈ list_export_sets sc := by
  rw [sync_order_eq, List.mem_append, List.mem_filter, List.mem_filter]
  rw [← mem_groupsDictKeys sc a]
  constructor
  · rintro (⟨_, h⟩ | ⟨h, _⟩)
    · simpa using h
    · exact h
  · intro h
    by_cases ho : a ∈ order
    · exact Or.inl ⟨ho, by simpa using h⟩
    · exact Or.inr ⟨h, by simpa using ho⟩

theorem sync_order_nodup (order : List String) (sc : Scene)
    (h : order.Nodup) : (sync_order order sc).Nodup := by
  rw [sync_order_eq]
  refine List.Nodup.append (h.filter _) ((groupsDictKeys_nodup sc).filter _) ?_
  intro a ha hb
  have h1 := (List.mem_filter.mp ha).1
  have h2 := (List.mem_filter.mp hb).2
  simp at h2
  exact h2 h1

/-- C9: when Scene Store enumeration fails during sync, sync completes, the
enumeration degrades to the empty list, and group_order and the export-group
list are emptied rather than kept. -/
theorem sync_enum_failure_empties (st : DMState) (h : st.scene.enumOk = false) :
    (sync_from_scene st).group_order = [] ∧ (sync_from_scene st).export_groups = [] := by
  have hempty : list_export_sets st.scene = [] := by
    unfold list_export_sets
    rw [h]
    simp
  have hkeys : groupsDictKeys st.scene = [] := by
    unfold groupsDictKeys
    rw [hempty]
    simp [dedupKeys]
  have horder : sync_order st.group_order st.scene = [] := by
    rw [sync_order_eq, hkeys]
    simp
  constructor
  · simpa [sync_from_scene] using horder
  · simp [sync_from_scene, horder]

/-- C9 witness: a concrete state whose scene enumeration fails syncs to the
empty order and empty group list. -/
theorem sync_enum_failure_witness :
    (sync_from_scene ⟨["batchExport_A"], [mkGroup "batchExport_A"],
        ⟨["batchExport_A"], [], fun _ => [], false⟩⟩).group_order = [] ∧
    (sync_from_scene ⟨["batchExport_A"], [mkGroup "batchExport_A"],
        ⟨["batchExport_A"], [], fun _ => [], false⟩⟩).export_groups = [] :=
  sync_enum_failure_empties _ rfl

/-! ## Lemmas: adjacent swaps permute, operations keep names duplicate-free -/

theorem listSwap_perm_up (l : List String) (j : Nat) (h2 : j + 1 < l.length) :
    List.Perm (listSwap l (j+1) j) l := by
  have hj : j < l.length := by omega
  have ha : l.getD j "" = l[j] := List.getD_eq_getElem l "" hj
  have hb : l.getD (j+1) "" = l[j+1] := List.getD_eq_getElem l "" h2
  unfold listSwap
  rw [ha, hb]
  have hs1 : l.set (j+1) l[j] = l.take (j+1) ++ l[j] :: l.drop (j+2) :=
    List.set_eq_take_cons_drop _ h2
  rw [hs1]
  have hlen1 : j ≤ (l.take (j+1)).length := by
    rw [List.length_take]
    omega
  have hset2 : (l.take (j+1) ++ l[j] :: l.drop (j+2)).set j l[j+1] =
      l.take j ++ l[j+1] :: l[j] :: l.drop (j+2) := by
    rw [List.set_eq_take_cons_drop _ (by rw [List.length_append, List.length_take]; simp; omega)]
    congr 1
    · rw [List.take_append_of_le_length hlen1, List.take_take]
      congr 1
      omega
    · congr 1
      rw [List.drop_left' (by rw [List.length_take]; omega)]
  rw [hset2]
  have hdecomp : l = l.take j ++ l[j] :: l[j+1] :: l.drop (j+2) := by
    conv_lhs => rw [← List.take_append_drop j l]
    congr 1
    rw [List.drop_eq_getElem_cons hj]
    congr 1
    have := List.drop_eq_getElem_cons h2
    simpa using this
  conv_rhs => rw [hdecomp]
  exact List.Perm.append_left _ (List.Perm.swap l[j] l[j+1] _)

theorem listSwap_perm_down (l : List String) (i : Nat) (h2 : i + 1 < l.length) :
    List.Perm (listSwap l i (i+1)) l := by
  have hi : i < l.length := by omega
  have ha : l.getD i "" = l[i] := List.getD_eq_getElem l "" hi
  have hb : l.getD (i+1) "" = l[i+1] := List.getD_eq_getElem l "" h2
  unfold listSwap
  rw [ha, hb]
  have hs1 : l.set i l[i+1] = l.take i ++ l[i+1] :: l.drop (i+1) :=
    List.set_eq_take_cons_drop _ hi
  rw [hs1]
  have hdrop : l.drop (i+1) = l[i+1] :: l.drop (i+2) := by
    have := List.drop_eq_getElem_cons h2
    simpa using this
  have hlen : (l.take i).length = i := by rw [List.length_take]; omega
  have htg : ∀ (A : List String) (x : String) (R : List String), A.length = i →
      (A ++ x :: R).take (i+1) = A ++ [x] := by
    intro A x R hA
    subst hA
    rw [show A.length + 1 = A.length + 1 from rfl, List.take_append]
    simp
  have hdg : ∀ (A : List String) (x : String) (R : List String), A.length = i →
      (A ++ x :: R).drop (i+2) = R.drop 1 := by
    intro A x R hA
    subst hA
    rw [show A.length + 2 = A.length + 2 from rfl, List.drop_append]
    simp
  have hset2 : (l.take i ++ l[i+1] :: l.drop (i+1)).set (i+1) l[i] =
      l.take i ++ l[i+1] :: l[i] :: l.drop (i+2) := by
    rw [List.set_eq_take_cons_drop _
        (by rw [List.length_append, List.length_take, List.length_cons, List.length_drop]; omega)]
    rw [htg (l.take i) l[i+1] (l.drop (i+1)) hlen]
    rw [hdg (l.take i) l[i+1] (l.drop (i+1)) hlen]
    rw [List.drop_drop]
    simp
  rw [hset2]
  have hdecomp : l = l.take i ++ l[i] :: l[i+1] :: l.drop (i+2) := by
    conv_lhs => rw [← List.take_append_drop i l]
    rw [List.drop_eq_getElem_cons hi, hdrop]
  conv_rhs => rw [hdecomp]
  exact List.Perm.append_left _ (List.Perm.swap l[i] l[i+1] _)

theorem map_replace_nodup (l : List String) (old_name new_name : String)
    (h : l.Nodup) (hnew : new_name ∉ l) :
    (l.map (fun s => if s = old_name then new_name else s)).Nodup := by
  induction l with
  | nil => simp
  | cons a rest ih =>
    simp only [List.map]
    have hnd := List.nodup_cons.mp h
    refine List.nodup_cons.mpr ⟨?_, ih hnd.2 (fun hm => hnew (List.mem_cons_of_mem a hm))⟩
    intro hmem
    rcases List.mem_map.mp hmem with ⟨x, hx, hxeq⟩
    by_cases hax : a = old_name
    · rw [if_pos hax] at hxeq
      by_cases hxo : x = old_name
      · rw [if_pos hxo] at hxeq
        exact hnd.1 (hax ▸ hxo ▸ hx)
      · rw [if_neg hxo] at hxeq
        exact hnew (hxeq ▸ List.mem_cons_of_mem a hx)
    · rw [if_neg hax] at hxeq
      by_cases hxo : x = old_name
      · rw [if_pos hxo] at hxeq
        exact hnew (hxeq ▸ List.mem_cons_self a rest)
      · rw [if_neg hxo] at hxeq
        exact hnd.1 (hxeq ▸ hx)

theorem not_mem_of_exists_false {sc : Scene} {x : String}
    (h : object_exists sc x = false) : x ∉ sc.sets := by
  intro hm
  have : object_exists sc x = true := by simp [object_exists, hm]
  rw [h] at this
  exact absurd this (by simp)

/-- The state invariant carried through every reconciler call: scene object
names and group_order duplicate-free, and group_order set-equal to the
reported export sets. -/
def FullInv (st : DMState) : Prop :=
  st.scene.sets.Nodup ∧ st.group_order.Nodup ∧
    ∀ s, s ∈ st.group_order ↔ s ∈ list_export_sets st.scene

theorem sync_FullInv (st : DMState) (hsets : st.scene.sets.Nodup)
    (horder : st.group_order.Nodup) : FullInv (sync_from_scene st) := by
  refine ⟨hsets, sync_order_nodup _ _ horder, ?_⟩
  intro s
  exact mem_sync_order st.group_order st.scene s

theorem create_sets_nodup (sc : Scene) (h : sc.sets.Nodup) (name : String)
    (hf : object_exists sc name = false) : (scene_create_set sc name).sets.Nodup := by
  simp only [scene_create_set]
  rw [List.nodup_append]
  refine ⟨h, List.nodup_singleton name, ?_⟩
  intro a ha hb
  simp at hb
  subst hb
  exact not_mem_of_exists_false hf ha

theorem delete_sets_nodup (sc : Scene) (h : sc.sets.Nodup) (name : String) :
    (scene_delete_object sc name).sets.Nodup := h.filter _

theorem rename_sets_nodup (sc : Scene) (h : sc.sets.Nodup) (old_name new_name : String)
    (hf : object_exists sc new_name = false) :
    (scene_rename_object sc old_name new_name).sets.Nodup :=
  map_replace_nodup _ _ _ h (not_mem_of_exists_false hf)

theorem applyOp_FullInv (st : DMState) (op : DMOp) (h : FullInv st) :
    FullInv (applyOp st op) := by
  obtain ⟨hsets, horder, hmem⟩ := h
  cases op with
  | addGroup name =>
    simp only [applyOp, add_export_group]
    cases hv : validate_group_name name with
    | none => exact ⟨hsets, horder, hmem⟩
    | some vname =>
      exact sync_FullInv _ (create_sets_nodup _ hsets _ (get_unique_set_name_free _ _)) horder
  | removeGroup i =>
    simp only [applyOp, remove_export_group]
    split
    · split
      · split
        · exact sync_FullInv _ (delete_sets_nodup _ hsets _) horder
        · exact ⟨hsets, horder, hmem⟩
      · exact sync_FullInv _ hsets horder
    · exact ⟨hsets, horder, hmem⟩
  | renameGroup i nm =>
    simp only [applyOp, update_export_group]
    split
    · split
      · exact ⟨hsets, horder, hmem⟩
      · split
        · exact ⟨hsets, horder, hmem⟩
        · split
          · exact sync_FullInv _
              (rename_sets_nodup _ hsets _ _ (get_unique_set_name_free _ _)) horder
          · exact sync_FullInv _ hsets horder
    · exact ⟨hsets, horder, hmem⟩
  | dupGroup i =>
    simp only [applyOp, duplicate_export_group]
    split
    · split
      · exact ⟨hsets, horder, hmem⟩
      · exact sync_FullInv _ (create_sets_nodup _ hsets _ (get_unique_set_name_free _ _)) horder
    · exact ⟨hsets, horder, hmem⟩
  | moveUp i =>
    simp only [applyOp, move_group_up]
    split
    · exact ⟨hsets, horder, hmem⟩
    · rename_i hcond
      simp only [Bool.or_eq_true, decide_eq_true_eq, not_or] at hcond
      obtain ⟨h0, hlen'⟩ := hcond
      have hlen : i < st.group_order.length := by omega
      obtain ⟨j, rfl⟩ : ∃ j, i = j + 1 := ⟨i - 1, by omega⟩
      exact sync_FullInv _ hsets
        (by simpa using (listSwap_perm_up st.group_order j (by omega)).nodup_iff.mpr horder)
  | moveDown i =>
    simp only [applyOp, move_group_down]
    split
    · exact ⟨hsets, horder, hmem⟩
    · rename_i hcond
      have hlen : i + 1 < st.group_order.length := by omega
      exact sync_FullInv _ hsets
        ((listSwap_perm_down st.group_order i hlen).nodup_iff.mpr horder)

theorem runOps_FullInv (st : DMState) (ops : List DMOp) (h : FullInv st) :
    FullInv (runOps st ops) := by
  induction ops generalizing st with
  | nil => exact h
  | cons op rest ih => exact ih _ (applyOp_FullInv st op h)

/-- C2: starting from any well-formed state (duplicate-free scene names and a
synced order), after any sequence of create/remove/rename/duplicate/moveUp/
moveDown calls — hence after each call of any such sequence — group_order has
no duplicate ids and holds exactly the set names currently reported by the
Scene Store. -/
theorem group_order_invariant (st0 : DMState) (ops : List DMOp) (hfull : FullInv st0) :
    (runOps st0 ops).group_order.Nodup ∧
      ∀ s, s ∈ (runOps st0 ops).group_order ↔
        s ∈ list_export_sets (runOps st0 ops).scene :=
  ⟨(runOps_FullInv st0 ops hfull).2.1, (runOps_FullInv st0 ops hfull).2.2⟩

/-- C2 witness: from the empty scene, a concrete sequence exercising every
operation keeps the invariant. -/
theorem group_order_invariant_witness :
    (runOps ⟨[], [], ⟨[], [], fun _ => [], true⟩⟩
        [.addGroup "Props", .addGroup "Props", .dupGroup 0, .moveUp 1,
         .renameGroup 0 "Crates", .removeGroup 0, .moveDown 0]).group_order.Nodup ∧
      ∀ s, s ∈ (runOps ⟨[], [], ⟨[], [], fun _ => [], true⟩⟩
        [.addGroup "Props", .addGroup "Props", .dupGroup 0, .moveUp 1,
         .renameGroup 0 "Crates", .removeGroup 0, .moveDown 0]).group_order ↔
        s ∈ list_export_sets (runOps ⟨[], [], ⟨[], [], fun _ => [], true⟩⟩
        [.addGroup "Props", .addGroup "Props", .dupGroup 0, .moveUp 1,
         .renameGroup 0 "Crates", .removeGroup 0, .moveDown 0]).scene :=
  group_order_invariant _ _ ⟨List.nodup_nil, List.nodup_nil, by intro s; simp [list_export_sets]⟩

/-! ## Lemmas for the rename/order analysis -/

theorem startsWith_of_append (p r : String) : pyStartsWith p (p ++ r) = true := by
  unfold pyStartsWith
  rw [String.data_append, List.isPrefixOf_iff_prefix]
  exact List.prefix_append _ _

theorem get_unique_startsWith (sc : Scene) (d : String) :
    pyStartsWith SET_PREFIX (get_unique_set_name sc d) = true := by
  simp only [get_unique_set_name]
  split
  · split
    · show pyStartsWith SET_PREFIX (create_set_name d ++ "_" ++ natToStr _) = true
      unfold pyStartsWith create_set_name
      rw [List.isPrefixOf_iff_prefix]
      simp only [String.data_append, List.append_assoc]
      exact List.prefix_append _ _
    · exact startsWith_of_append _ _
  · exact startsWith_of_append _ _

theorem mem_list_export_sets_startsWith {sc : Scene} {a : String}
    (h : a ∈ list_export_sets sc) : pyStartsWith SET_PREFIX a = true := by
  unfold list_export_sets at h
  split at h
  · exact (List.mem_filter.mp h).2
  · simp at h

theorem mem_list_export_sets_ne_empty {sc : Scene} {a : String}
    (h : a ∈ list_export_sets sc) : a ≠ "" := by
  intro hrfl
  subst hrfl
  exact absurd (mem_list_export_sets_startsWith h) (by decide)

theorem filter_eq_single (l : List String) (p : String → Bool) (a : String)
    (hnd : l.Nodup) (ha : a ∈ l) (hp : ∀ b ∈ l, p b = true ↔ b = a) :
    l.filter p = [a] := by
  induction l with
  | nil => simp at ha
  | cons x rest ih =>
    have hnd' := List.nodup_cons.mp hnd
    by_cases hxa : x = a
    · subst hxa
      rw [List.filter_cons_of_pos ((hp x (List.mem_cons_self x rest)).mpr rfl)]
      congr 1
      rw [List.filter_eq_nil_iff]
      intro b hb hpb
      have := (hp b (List.mem_cons_of_mem x hb)).mp hpb
      subst this
      exact hnd'.1 hb
    · have hpx : p x = false := by
        have := hp x (List.mem_cons_self x rest)
        rcases hpf : p x with _ | _
        · rfl
        · exact absurd (this.mp hpf) hxa
      rw [List.filter_cons_of_neg (by simp [hpx])]
      have ha' : a ∈ rest := by
        rcases List.mem_cons.mp ha with h1 | h1
        · exact absurd h1.symm hxa
        · exact h1
      exact ih hnd'.2 ha' (fun b hb => hp b (List.mem_cons_of_mem x hb))

theorem mem_list_export_sets_iff {sc : Scene} (henum : sc.enumOk = true) (s : String) :
    s ∈ list_export_sets sc ↔ s ∈ sc.sets ∧ pyStartsWith SET_PREFIX s = true := by
  unfold list_export_sets
  rw [if_pos henum]
  exact List.mem_filter

theorem mem_list_renamed (sc : Scene) (old_name new_name : String)
    (henum : sc.enumOk = true)
    (hold : old_name ∈ list_export_sets sc)
    (hnewsw : pyStartsWith SET_PREFIX new_name = true) (s : String) :
    s ∈ list_export_sets (scene_rename_object sc old_name new_name) ↔
      (s = new_name ∨ (s ∈ list_export_sets sc ∧ s ≠ old_name)) := by
  have henum' : (scene_rename_object sc old_name new_name).enumOk = true := henum
  rw [mem_list_export_sets_iff henum']
  have hsets : (scene_rename_object sc old_name new_name).sets =
      sc.sets.map (fun s => if s = old_name then new_name else s) := rfl
  rw [hsets]
  rw [List.mem_map]
  constructor
  · rintro ⟨⟨x, hx, hxeq⟩, hsw⟩
    by_cases hxo : x = old_name
    · rw [if_pos hxo] at hxeq
      exact Or.inl hxeq.symm
    · rw [if_neg hxo] at hxeq
      subst hxeq
      exact Or.inr ⟨(mem_list_export_sets_iff henum x).mpr ⟨hx, hsw⟩, hxo⟩
  · rintro (rfl | ⟨hs, hso⟩)
    · refine ⟨⟨old_name, mem_list_export_sets_sets hold, by simp⟩, hnewsw⟩
    · have := (mem_list_export_sets_iff henum s).mp hs
      exact ⟨⟨s, this.1, by simp [hso]⟩, this.2⟩



/-- C1 (amended): for a group backed by the Scene Store, rename followed by
sync keeps the relative order of the other groups but drops the old id and
appends the freshly derived id at the END of groupOrder — the renamed group
lands at the last index, not at the index it held before. -/
theorem rename_moves_renamed_group_to_end
    (st : DMState) (i : Nat) (nm vname : String)
    (hv : validate_group_name nm = some vname)
    (hfull : FullInv st)
    (hgroups : st.export_groups = st.group_order.map mkGroup)
    (hi : i < st.export_groups.length) :
    (update_export_group st i (some nm)).group_order =
      st.group_order.filter
        (fun s => s ≠ (st.export_groups.getD i ⟨"", ""⟩).set_name) ++
      [get_unique_set_name st.scene vname] := by
  obtain ⟨hsets, horder, hmem⟩ := hfull
  have hleno : i < st.group_order.length := by
    rw [hgroups, List.length_map] at hi
    exact hi
  set old := (st.export_groups.getD i ⟨"", ""⟩).set_name with holddef
  set nw := get_unique_set_name st.scene vname with hnwdef
  have holdeq : old = st.group_order[i] := by
    rw [holddef, hgroups]
    rw [List.getD_eq_getElem _ _ (by rw [List.length_map]; exact hleno)]
    rw [List.getElem_map]
    rfl
  have holdmem : old ∈ st.group_order := by
    rw [holdeq]
    exact List.getElem_mem hleno
  have holdlist := (hmem _).mp holdmem
  have henum : st.scene.enumOk = true := by
    rcases h : st.scene.enumOk
    · exfalso
      unfold list_export_sets at holdlist
      rw [h] at holdlist
      simp at holdlist
    · rfl
  have holdsets := mem_list_export_sets_sets holdlist
  have holdexists : object_exists st.scene old = true := by
    simp [object_exists, holdsets]
  have holdne := mem_list_export_sets_ne_empty holdlist
  have hnewfree := get_unique_set_name_free st.scene vname
  have hnewnotin : nw ∉ st.scene.sets := not_mem_of_exists_false hnewfree
  have hnewsw := get_unique_startsWith st.scene vname
  have hnewneold : nw ≠ old := fun h => hnewnotin (h ▸ holdsets)
  have hnewnotorder : nw ∉ st.group_order :=
    fun h => hnewnotin (mem_list_export_sets_sets ((hmem _).mp h))
  simp only [update_export_group]
  rw [if_pos hi]
  rw [← holddef]
  rw [if_neg (by simp [holdne, holdexists])]
  split
  · rename_i heq
    rw [hv] at heq
    simp at heq
  rename_i vname2 heq
  rw [hv] at heq
  injection heq with hveq
  subst hveq
  rw [← hnwdef]
  rw [if_pos hnewneold]
  simp only [sync_from_scene]
  rw [sync_order_eq]
  have hpart2 : (groupsDictKeys (scene_rename_object st.scene old nw)).filter
      (fun s => !st.group_order.contains s) = [nw] := by
    apply filter_eq_single _ _ _ (groupsDictKeys_nodup _)
    · rw [mem_groupsDictKeys, mem_list_renamed _ _ _ henum holdlist hnewsw]
      exact Or.inl rfl
    · intro b hb
      rw [mem_groupsDictKeys, mem_list_renamed _ _ _ henum holdlist hnewsw] at hb
      rcases hb with hb | ⟨hbl, hbo⟩
      · rw [hb]
        have hc : st.group_order.contains nw = false := by
          rcases h : st.group_order.contains nw
          · rfl
          · exact absurd (by simpa using h) hnewnotorder
        simp [hc]
        exact hnewnotorder
      · have hbmem : b ∈ st.group_order := (hmem b).mpr hbl
        have hbne : b ≠ nw :=
          fun h => hnewnotin (h ▸ mem_list_export_sets_sets hbl)
        simp [hbmem, hbne]
  rw [hpart2]
  congr 1
  apply List.filter_congr
  intro a ha
  have hal := (hmem a).mp ha
  by_cases hao : a = old
  · have hnotmem : old ∉ groupsDictKeys (scene_rename_object st.scene old nw) := by
      rw [mem_groupsDictKeys, mem_list_renamed _ _ _ henum holdlist hnewsw]
      rintro (h1 | ⟨_, h2⟩)
      · exact hnewneold h1.symm
      · exact h2 rfl
    rw [hao]
    simp [hnotmem]
  · have hm : a ∈ groupsDictKeys (scene_rename_object st.scene old nw) := by
      rw [mem_groupsDictKeys, mem_list_renamed _ _ _ henum holdlist hnewsw]
      exact Or.inr ⟨hal, hao⟩
    simp [hm, hao]

/-- A concrete synced two-group state used to exercise rename. -/
def renameDemoState : DMState :=
  ⟨["batchExport_A", "batchExport_B"],
   [mkGroup "batchExport_A", mkGroup "batchExport_B"],
   ⟨["batchExport_A", "batchExport_B"], [], fun _ => [], true⟩⟩

/-- C1 counterexample: the group at index 0 (backed by batchExport_A), renamed
to "C", does NOT keep index 0 after the rename-and-sync: the fresh id
batchExport_C lands at index 1 (the end), while the store does back it. -/
theorem rename_preserves_index_counterexample :
    (update_export_group renameDemoState 0 (some "C")).group_order =
        ["batchExport_B", "batchExport_C"] ∧
    renameDemoState.group_order.indexOf "batchExport_A" = 0 ∧
    (update_export_group renameDemoState 0 (some "C")).group_order.indexOf
        "batchExport_C" = 1 ∧
    object_exists (update_export_group renameDemoState 0 (some "C")).scene
        "batchExport_C" = true := by decide

/-- C1 witness for the amended statement, at the same concrete state. -/
theorem rename_moves_to_end_witness :
    (update_export_group renameDemoState 0 (some "C")).group_order =
      renameDemoState.group_order.filter
        (fun s => s ≠ (renameDemoState.export_groups.getD 0 ⟨"", ""⟩).set_name) ++
      [get_unique_set_name renameDemoState.scene "C"] :=
  rename_moves_renamed_group_to_end renameDemoState 0 "C" "C" (by decide)
    ⟨by decide, by decide, by
      intro s
      have h : list_export_sets renameDemoState.scene =
          ["batchExport_A", "batchExport_B"] := by decide
      rw [h]
      rfl⟩
    (by decide) (by decide)

/-! ## ui/widgets/tree_view.py: ExportTreeWidget.refresh (no active search
filter; widget items are modelled by their displayed label, logical key,
expansion/selection flags and children) -/

structure ObjItem where
  obj_name : String
  obj_selected : Bool
deriving DecidableEq

structure GroupItem where
  label : String
  set_name : String
  expanded : Bool
  selected : Bool
  children : List ObjItem
deriving DecidableEq

structure TreeState where
  tree : List GroupItem
  expanded_groups_state : Option (List String)
deriving DecidableEq

/-- The ExpansionSnapshot captured from the current tree: keys of expanded
group items with a truthy set_name. -/
def capturedExpanded (tree : List GroupItem) : List String :=
  (tree.filter (fun g => g.set_name ≠ "" && g.expanded)).map (fun g => g.set_name)

/-- The group part of the SelectionSnapshot. -/
def capturedSelGroups (tree : List GroupItem) : List String :=
  (tree.filter (fun g => g.selected && g.set_name ≠ "")).map (fun g => g.set_name)

/-- The member part of the SelectionSnapshot: (parent set_name, member name)
pairs of selected member items with truthy components. -/
def capturedSelObjects (tree : List GroupItem) : List (String × String) :=
  tree.flatMap (fun g =>
    (g.children.filter (fun o => o.obj_selected && g.set_name ≠ "" && o.obj_name ≠ "")).map
      (fun o => (g.set_name, o.obj_name)))

/-- One rebuilt group item, with the restore phase already applied: member
selection by key lookup in the snapshot, group selection likewise, expansion
from the expanded-state (default expanded on a first build), forced open when
a restored member selection lies under it. -/
def buildGroupItem (objectsOf : String → List String) (est : Option (List String))
    (selG : List String) (selO : List (String × String)) (group : ExportGroup) : GroupItem :=
  let set_name := group.set_name
  let objs := if set_name ≠ "" then objectsOf set_name else []
  let children := objs.map (fun obj =>
    { obj_name := obj, obj_selected := selO.contains (set_name, obj) })
  let childSelected := objs.any (fun obj => selO.contains (set_name, obj))
  { label := group.name, set_name := set_name,
    expanded := (match est with
      | some es => es.contains set_name
      | none => true) || childSelected,
    selected := selG.contains set_name,
    children := children }

/-- ExportTreeWidget.refresh: capture the snapshots when preservation is
requested and the tree is non-empty, rebuild every node from the data, restore
expansion and selection by logical key, and record force-expanded parents in
the stored expanded-state. -/
def refresh (ts : TreeState) (preserve_selection : Bool)
    (groups : List ExportGroup) (objectsOf : String → List String) : TreeState :=
  let doCapture := preserve_selection && !ts.tree.isEmpty
  let selG := if doCapture then capturedSelGroups ts.tree else []
  let selO := if doCapture then capturedSelObjects ts.tree else []
  let est := if doCapture then some (capturedExpanded ts.tree) else ts.expanded_groups_state
  let newTree := groups.map (buildGroupItem objectsOf est selG selO)
  let forced := (newTree.filter (fun g => g.children.any (fun o => o.obj_selected))).map
    (fun g => g.set_name)
  { tree := newTree,
    expanded_groups_state :=
      match est with
      | some es => some (es ++ forced)
      | none => none }

/-- The expansion set of a (rebuilt) tree. -/
def expansionSet (tree : List GroupItem) : List String :=
  (tree.filter (fun g => g.expanded)).map (fun g => g.set_name)

/-- The selected-group set of a tree. -/
def selectedGroupSet (tree : List GroupItem) : List String :=
  (tree.filter (fun g => g.selected)).map (fun g => g.set_name)

/-- The selected-member set of a tree, as (parent key, member name) pairs. -/
def selectedObjectSet (tree : List GroupItem) : List (String × String) :=
  tree.flatMap (fun g =>
    (g.children.filter (fun o => o.obj_selected)).map (fun o => (g.set_name, o.obj_name)))

/-- The displayed tree agrees with the reconciled data: same group labels and
keys in order, and each group item shows exactly the data's members. -/
def treeMatchesData (tree : List GroupItem) (groups : List ExportGroup)
    (objectsOf : String → List String) : Prop :=
  tree.map (fun g => (g.label, g.set_name, g.children.map (fun o => o.obj_name))) =
    groups.map (fun gr => (gr.name, gr.set_name, objectsOf gr.set_name))

/-- C3 counterexample: with unchanged data, a collapsed group with a selected
member is force-expanded by the rebuild, so the restored expansion set is
strictly larger than E intersected with the still-present keys (which is
empty here). -/
theorem refresh_roundtrip_counterexample :
    treeMatchesData [⟨"A", "batchExport_A", false, false, [⟨"cube1", true⟩]⟩]
        [⟨"A", "batchExport_A"⟩]
        (fun s => if s = "batchExport_A" then ["cube1"] else []) ∧
    capturedExpanded [⟨"A", "batchExport_A", false, false, [⟨"cube1", true⟩]⟩] = [] ∧
    expansionSet (refresh ⟨[⟨"A", "batchExport_A", false, false, [⟨"cube1", true⟩]⟩], none⟩
        true [⟨"A", "batchExport_A"⟩]
        (fun s => if s = "batchExport_A" then ["cube1"] else [])).tree =
      ["batchExport_A"] := by
  refine ⟨?_, by decide, by decide⟩
  unfold treeMatchesData
  decide

/-! ## Lemmas for the projection round-trip -/

theorem mem_capturedSelGroups (tree : List GroupItem)
    (hkeys : ∀ g ∈ tree, g.set_name ≠ "") (s : String) :
    s ∈ capturedSelGroups tree ↔ ∃ g ∈ tree, g.selected = true ∧ g.set_name = s := by
  unfold capturedSelGroups
  rw [List.mem_map]
  constructor
  · rintro ⟨g, hg, rfl⟩
    have hf := List.mem_filter.mp hg
    have h2 := hf.2
    simp at h2
    exact ⟨g, hf.1, h2.1, rfl⟩
  · rintro ⟨g, hg, hsel, rfl⟩
    refine ⟨g, List.mem_filter.mpr ⟨hg, ?_⟩, rfl⟩
    simp [hsel, hkeys g hg]

theorem mem_capturedExpanded (tree : List GroupItem)
    (hkeys : ∀ g ∈ tree, g.set_name ≠ "") (s : String) :
    s ∈ capturedExpanded tree ↔ ∃ g ∈ tree, g.expanded = true ∧ g.set_name = s := by
  unfold capturedExpanded
  rw [List.mem_map]
  constructor
  · rintro ⟨g, hg, rfl⟩
    have hf := List.mem_filter.mp hg
    have h2 := hf.2
    simp at h2
    exact ⟨g, hf.1, h2.2, rfl⟩
  · rintro ⟨g, hg, hexp, rfl⟩
    refine ⟨g, List.mem_filter.mpr ⟨hg, ?_⟩, rfl⟩
    simp [hexp, hkeys g hg]

theorem mem_capturedSelObjects (tree : List GroupItem)
    (hkeys : ∀ g ∈ tree, g.set_name ≠ "")
    (hobjs : ∀ g ∈ tree, ∀ o ∈ g.children, o.obj_name ≠ "") (p : String × String) :
    p ∈ capturedSelObjects tree ↔
      ∃ g ∈ tree, ∃ o ∈ g.children, o.obj_selected = true ∧ (g.set_name, o.obj_name) = p := by
  unfold capturedSelObjects
  rw [List.mem_flatMap]
  constructor
  · rintro ⟨g, hg, hp⟩
    rw [List.mem_map] at hp
    obtain ⟨o, ho, rfl⟩ := hp
    have hf := List.mem_filter.mp ho
    have h2 := hf.2
    simp at h2
    exact ⟨g, hg, o, hf.1, h2.1.1, rfl⟩
  · rintro ⟨g, hg, o, ho, hsel, rfl⟩
    refine ⟨g, hg, ?_⟩
    rw [List.mem_map]
    refine ⟨o, List.mem_filter.mpr ⟨ho, ?_⟩, rfl⟩
    simp [hsel, hkeys g hg, hobjs g hg o ho]

theorem matches_keys_eq {tree : List GroupItem} {groups : List ExportGroup}
    {objectsOf : String → List String} (hmatch : treeMatchesData tree groups objectsOf) :
    tree.map (fun g => g.set_name) = groups.map (fun gr => gr.set_name) := by
  have h := congrArg (List.map (fun x : String × String × List String => x.2.1)) hmatch
  simpa [List.map_map, Function.comp] using h

theorem matches_key_present {tree : List GroupItem} {groups : List ExportGroup}
    {objectsOf : String → List String} (hmatch : treeMatchesData tree groups objectsOf)
    (s : String) :
    (∃ g ∈ tree, g.set_name = s) ↔ ∃ gr ∈ groups, gr.set_name = s := by
  have hk := matches_keys_eq hmatch
  constructor
  · rintro ⟨g, hg, rfl⟩
    have hm : g.set_name ∈ groups.map (fun gr => gr.set_name) := by
      rw [← hk]
      exact List.mem_map_of_mem _ hg
    rw [List.mem_map] at hm
    obtain ⟨gr, hgr, hge⟩ := hm
    exact ⟨gr, hgr, hge⟩
  · rintro ⟨gr, hgr, rfl⟩
    have hm : gr.set_name ∈ tree.map (fun g => g.set_name) := by
      rw [hk]
      exact List.mem_map_of_mem _ hgr
    rw [List.mem_map] at hm
    obtain ⟨g, hg, hge⟩ := hm
    exact ⟨g, hg, hge⟩

theorem matches_children {tree : List GroupItem} {groups : List ExportGroup}
    {objectsOf : String → List String} (hmatch : treeMatchesData tree groups objectsOf)
    {g : GroupItem} (hg : g ∈ tree) :
    g.children.map (fun o => o.obj_name) = objectsOf g.set_name := by
  have hmem : (g.label, g.set_name, g.children.map (fun o => o.obj_name)) ∈
      groups.map (fun gr => (gr.name, gr.set_name, objectsOf gr.set_name)) := by
    rw [← hmatch]
    exact List.mem_map_of_mem _ hg
  rw [List.mem_map] at hmem
  obtain ⟨gr, _, heq⟩ := hmem
  have h2 := congrArg (fun x : String × String × List String => x.2.1) heq
  have h3 := congrArg (fun x : String × String × List String => x.2.2) heq
  simp at h2 h3
  rw [← h2]
  exact h3.symm

theorem buildGroupItem_set_name (objectsOf : String → List String)
    (est : Option (List String)) (selG : List String) (selO : List (String × String))
    (gr : ExportGroup) :
    (buildGroupItem objectsOf est selG selO gr).set_name = gr.set_name := rfl

theorem buildGroupItem_selected (objectsOf : String → List String)
    (est : Option (List String)) (selG : List String) (selO : List (String × String))
    (gr : ExportGroup) :
    (buildGroupItem objectsOf est selG selO gr).selected = selG.contains gr.set_name := rfl

theorem buildGroupItem_children (objectsOf : String → List String)
    (est : Option (List String)) (selG : List String) (selO : List (String × String))
    (gr : ExportGroup) (h : gr.set_name ≠ "") :
    (buildGroupItem objectsOf est selG selO gr).children =
      (objectsOf gr.set_name).map
        (fun obj => ⟨obj, selO.contains (gr.set_name, obj)⟩) := by
  show ((if gr.set_name ≠ "" then objectsOf gr.set_name else []).map
      (fun obj => (⟨obj, selO.contains (gr.set_name, obj)⟩ : ObjItem))) = _
  rw [if_pos h]

theorem buildGroupItem_expanded (objectsOf : String → List String)
    (est : Option (List String)) (selG : List String) (selO : List (String × String))
    (gr : ExportGroup) (h : gr.set_name ≠ "") :
    (buildGroupItem objectsOf est selG selO gr).expanded =
      ((match est with
        | some es => es.contains gr.set_name
        | none => true) ||
       (objectsOf gr.set_name).any (fun obj => selO.contains (gr.set_name, obj))) := by
  show ((match est with
        | some es => es.contains gr.set_name
        | none => true) ||
      (if gr.set_name ≠ "" then objectsOf gr.set_name else []).any
        (fun obj => selO.contains (gr.set_name, obj))) = _
  rw [if_pos h]

/-- C3 (amended): after a rebuild with preservation requested and unchanged
underlying data, the restored selection sets equal the captured snapshots (S
intersected with the still-present keys, which is all of S here), while the
restored expansion set equals E plus the parents of restored member
selections, which are force-expanded so the selection stays visible. -/
theorem refresh_restores_by_key
    (ts : TreeState) (groups : List ExportGroup) (objectsOf : String → List String)
    (hne : ts.tree ≠ [])
    (hmatch : treeMatchesData ts.tree groups objectsOf)
    (hkeys : ∀ g ∈ ts.tree, g.set_name ≠ "")
    (hobjs : ∀ g ∈ ts.tree, ∀ o ∈ g.children, o.obj_name ≠ "") :
    (∀ s, s ∈ selectedGroupSet (refresh ts true groups objectsOf).tree ↔
        s ∈ capturedSelGroups ts.tree) ∧
    (∀ p, p ∈ selectedObjectSet (refresh ts true groups objectsOf).tree ↔
        p ∈ capturedSelObjects ts.tree) ∧
    (∀ s, s ∈ expansionSet (refresh ts true groups objectsOf).tree ↔
        (s ∈ capturedExpanded ts.tree ∨ ∃ o, (s, o) ∈ capturedSelObjects ts.tree)) := by
  have hcap : (true && !ts.tree.isEmpty) = true := by
    cases h : ts.tree with
    | nil => exact absurd h hne
    | cons a l => simp [h]
  have ht' : (refresh ts true groups objectsOf).tree =
      groups.map (buildGroupItem objectsOf (some (capturedExpanded ts.tree))
        (capturedSelGroups ts.tree) (capturedSelObjects ts.tree)) := by
    simp only [refresh, hcap]
    simp
  have hgrkeys : ∀ gr ∈ groups, gr.set_name ≠ "" := by
    intro gr hgr
    obtain ⟨g, hg, hkey⟩ := (matches_key_present hmatch gr.set_name).mpr ⟨gr, hgr, rfl⟩
    rw [← hkey]
    exact hkeys g hg
  refine ⟨?_, ?_, ?_⟩
  · intro s
    rw [ht']
    unfold selectedGroupSet
    rw [List.mem_map]
    constructor
    · rintro ⟨g', hg', rfl⟩
      have hf := List.mem_filter.mp hg'
      obtain ⟨gr, hgr, rfl⟩ := List.mem_map.mp hf.1
      have hsel : (capturedSelGroups ts.tree).contains gr.set_name = true := by
        have h2 := hf.2
        rwa [buildGroupItem_selected] at h2
      rw [buildGroupItem_set_name]
      simpa using hsel
    · intro hs
      obtain ⟨g, hg, hgsel, hgkey⟩ := (mem_capturedSelGroups ts.tree hkeys s).mp hs
      obtain ⟨gr, hgr, hkeyeq⟩ := (matches_key_present hmatch s).mp ⟨g, hg, hgkey⟩
      refine ⟨buildGroupItem objectsOf (some (capturedExpanded ts.tree))
          (capturedSelGroups ts.tree) (capturedSelObjects ts.tree) gr,
        List.mem_filter.mpr ⟨List.mem_map_of_mem _ hgr, ?_⟩, ?_⟩
      · rw [buildGroupItem_selected, hkeyeq]
        simpa using hs
      · rw [buildGroupItem_set_name]
        exact hkeyeq
  · intro p
    rw [ht']
    unfold selectedObjectSet
    rw [List.mem_flatMap]
    constructor
    · rintro ⟨g', hg', hp⟩
      obtain ⟨gr, hgr, rfl⟩ := List.mem_map.mp hg'
      rw [List.mem_map] at hp
      obtain ⟨o, ho, rfl⟩ := hp
      have hfo := List.mem_filter.mp ho
      have hom := hfo.1
      rw [buildGroupItem_children _ _ _ _ _ (hgrkeys gr hgr)] at hom
      obtain ⟨obj, hobjmem, rfl⟩ := List.mem_map.mp hom
      have hsel : (capturedSelObjects ts.tree).contains (gr.set_name, obj) = true := hfo.2
      rw [buildGroupItem_set_name]
      simpa using hsel
    · intro hp
      obtain ⟨g, hg, o, ho, hosel, hpe⟩ :=
        (mem_capturedSelObjects ts.tree hkeys hobjs p).mp hp
      obtain ⟨gr, hgr, hkeyeq⟩ := (matches_key_present hmatch g.set_name).mp ⟨g, hg, rfl⟩
      have hchild := matches_children hmatch hg
      have honame : o.obj_name ∈ objectsOf g.set_name := by
        rw [← hchild]
        exact List.mem_map_of_mem _ ho
      refine ⟨buildGroupItem objectsOf (some (capturedExpanded ts.tree))
          (capturedSelGroups ts.tree) (capturedSelObjects ts.tree) gr,
        List.mem_map_of_mem _ hgr, ?_⟩
      rw [List.mem_map]
      refine ⟨⟨o.obj_name, (capturedSelObjects ts.tree).contains (gr.set_name, o.obj_name)⟩,
        List.mem_filter.mpr ⟨?_, ?_⟩, ?_⟩
      · rw [buildGroupItem_children _ _ _ _ _ (hgrkeys gr hgr)]
        rw [List.mem_map]
        refine ⟨o.obj_name, ?_, rfl⟩
        rw [hkeyeq]
        exact honame
      · show (capturedSelObjects ts.tree).contains (gr.set_name, o.obj_name) = true
        rw [hkeyeq, hpe]
        simpa using hp
      · show (gr.set_name, o.obj_name) = p
        rw [hkeyeq]
        exact hpe
  · intro s
    rw [ht']
    unfold expansionSet
    rw [List.mem_map]
    constructor
    · rintro ⟨g', hg', rfl⟩
      have hf := List.mem_filter.mp hg'
      obtain ⟨gr, hgr, rfl⟩ := List.mem_map.mp hf.1
      have hexp := hf.2
      rw [buildGroupItem_expanded _ _ _ _ _ (hgrkeys gr hgr), Bool.or_eq_true] at hexp
      rw [buildGroupItem_set_name]
      rcases hexp with h1 | h2
      · left
        simpa using h1
      · right
        rw [List.any_eq_true] at h2
        obtain ⟨obj, _, hcont⟩ := h2
        exact ⟨obj, by simpa using hcont⟩
    · intro hs
      rcases hs with hsE | ⟨o, hso⟩
      · obtain ⟨g, hg, hgexp, hgkey⟩ := (mem_capturedExpanded ts.tree hkeys s).mp hsE
        obtain ⟨gr, hgr, hkeyeq⟩ := (matches_key_present hmatch s).mp ⟨g, hg, hgkey⟩
        refine ⟨buildGroupItem objectsOf (some (capturedExpanded ts.tree))
            (capturedSelGroups ts.tree) (capturedSelObjects ts.tree) gr,
          List.mem_filter.mpr ⟨List.mem_map_of_mem _ hgr, ?_⟩, ?_⟩
        · rw [buildGroupItem_expanded _ _ _ _ _ (hgrkeys gr hgr), Bool.or_eq_true]
          left
          show (capturedExpanded ts.tree).contains gr.set_name = true
          rw [hkeyeq]
          simpa using hsE
        · rw [buildGroupItem_set_name]
          exact hkeyeq
      · obtain ⟨g, hg, ob, hob, hobsel, hpe⟩ :=
          (mem_capturedSelObjects ts.tree hkeys hobjs (s, o)).mp hso
        have hpe1 : g.set_name = s := congrArg Prod.fst hpe
        have hpe2 : ob.obj_name = o := congrArg Prod.snd hpe
        obtain ⟨gr, hgr, hkeyeq⟩ := (matches_key_present hmatch s).mp ⟨g, hg, hpe1⟩
        refine ⟨buildGroupItem objectsOf (some (capturedExpanded ts.tree))
            (capturedSelGroups ts.tree) (capturedSelObjects ts.tree) gr,
          List.mem_filter.mpr ⟨List.mem_map_of_mem _ hgr, ?_⟩, ?_⟩
        · rw [buildGroupItem_expanded _ _ _ _ _ (hgrkeys gr hgr), Bool.or_eq_true]
          right
          rw [List.any_eq_true]
          refine ⟨o, ?_, ?_⟩
          · have hchild := matches_children hmatch hg
            rw [hkeyeq, ← hpe1, ← hchild, ← hpe2]
            exact List.mem_map_of_mem _ hob
          · rw [hkeyeq]
            simpa using hso
        · rw [buildGroupItem_set_name]
          exact hkeyeq

/-- A concrete matched tree/data pair for the round-trip witness. -/
def treeDemo : TreeState :=
  ⟨[⟨"A", "batchExport_A", true, true, [⟨"cube1", false⟩, ⟨"cube2", true⟩]⟩,
    ⟨"B", "batchExport_B", false, false, []⟩], none⟩

def treeDemoGroups : List ExportGroup :=
  [⟨"A", "batchExport_A"⟩, ⟨"B", "batchExport_B"⟩]

def treeDemoObjects : String → List String :=
  fun s => if s = "batchExport_A" then ["cube1", "cube2"] else []

/-- C3 witness: the amended round-trip applied at concrete logical keys. -/
theorem refresh_restores_witness :
    ("batchExport_A" ∈
        selectedGroupSet (refresh treeDemo true treeDemoGroups treeDemoObjects).tree ↔
      "batchExport_A" ∈ capturedSelGroups treeDemo.tree) ∧
    (("batchExport_A", "cube2") ∈
        selectedObjectSet (refresh treeDemo true treeDemoGroups treeDemoObjects).tree ↔
      ("batchExport_A", "cube2") ∈ capturedSelObjects treeDemo.tree) ∧
    ("batchExport_B" ∈
        expansionSet (refresh treeDemo true treeDemoGroups treeDemoObjects).tree ↔
      ("batchExport_B" ∈ capturedExpanded treeDemo.tree ∨
        ∃ o, ("batchExport_B", o) ∈ capturedSelObjects treeDemo.tree)) :=
  ⟨(refresh_restores_by_key treeDemo treeDemoGroups treeDemoObjects (by decide)
      (by unfold treeMatchesData; decide) (by decide) (by decide)).1 "batchExport_A",
   (refresh_restores_by_key treeDemo treeDemoGroups treeDemoObjects (by decide)
      (by unfold treeMatchesData; decide) (by decide) (by decide)).2.1
      ("batchExport_A", "cube2"),
   (refresh_restores_by_key treeDemo treeDemoGroups treeDemoObjects (by decide)
      (by unfold treeMatchesData; decide) (by decide) (by decide)).2.2 "batchExport_B"⟩

/-! ## exporters/fbx_exporter.py and exporters/export_service.py -/

structure FBXSettings where
  up_axis : String
  triangulate : Bool
  convert_unit : String
  export_directory : String
  file_prefix : String
deriving DecidableEq

/-- The file system facts an export run consults. -/
structure FileSys where
  pathExists : String → Bool
  isFile : String → Bool
  makedirsOk : String → Bool

/-- PathValidator.validate_directory with must_exist = False: fails on an
empty path or on an existing path that is a file (normalization is identity
in the model). -/
def validate_directory (fs : FileSys) (path : String) : Bool :=
  path ≠ "" && !(fs.pathExists path && fs.isFile path)

/-- FBXSettings.validate: axis and unit in their enumerated sets, a non-empty
export directory that validates as a directory. -/
def fbx_settings_validate (fs : FileSys) (s : FBXSettings) : Bool :=
  ["Y", "Z"].contains s.up_axis &&
  ["cm", "m", "mm", "in", "ft"].contains s.convert_unit &&
  s.export_directory ≠ "" &&
  validate_directory fs s.export_directory

/-- One Scene Store or file-system call recorded during an export run. -/
inductive SceneOp where
  | getSelection
  | select (objects : List String)
  | selectClear
  | evalMel (cmd : String)
  | makedirs (dir : String)
deriving DecidableEq

/-- Whether the call mutates the Scene Store selection (select/setSelection). -/
def SceneOp.isSelection : SceneOp → Bool
  | .select _ => true
  | .selectClear => true
  | _ => false

/-- The environment an export runs against. -/
structure ExportEnv where
  scene : Scene
  fs : FileSys
  melOk : String → Bool

/-- Issue MEL commands in order until one fails (throws, caught by the
caller). -/
def runMelCommands (env : ExportEnv) : List String → Bool × List SceneOp
  | [] => (true, [])
  | cmd :: rest =>
    if env.melOk cmd then
      let r := runMelCommands env rest
      (r.1, .evalMel cmd :: r.2)
    else (false, [.evalMel cmd])

/-- FBXExporter.apply_settings: validate, then issue the four FBX MEL
commands; invalid settings or a MEL error yield false. -/
def apply_settings (env : ExportEnv) (s : FBXSettings) : Bool × List SceneOp :=
  if fbx_settings_validate env.fs s then
    runMelCommands env
      ["FBXResetExport",
       "FBXExportUpAxis " ++ s.up_axis,
       "FBXExportTriangulate -v " ++ (if s.triangulate then "true" else "false"),
       "FBXExportConvertUnitString \"" ++ s.convert_unit ++ "\""]
  else (false, [])

def FBX_EXTENSION : String := ".fbx"

/-- os.path.join(export_directory, file_prefix + name + ".fbx"). -/
def export_path_of (s : FBXSettings) (name : String) : String :=
  s.export_directory ++ "/" ++ (s.file_prefix ++ name ++ FBX_EXTENSION)

/-- The restore step: re-select the prior selection, or clear when it was
empty. -/
def restoreOps (previous_selection : List String) : List SceneOp :=
  if previous_selection ≠ [] then [.select previous_selection] else [.selectClear]

/-- The outcome of FBXExporter.export_group: the returned (success, message)
pair, the ordered scene calls, and the Scene Store selection on return. -/
structure ExportRun where
  success : Bool
  message : String
  ops : List SceneOp
  finalSelection : List String
deriving DecidableEq

/-- FBXExporter.export_group: validation first (settings, backing set, raw
non-empty membership, creatable directory), then snapshot the selection,
apply settings, select the members, run the FBX export, and restore the
prior selection on the success path and on the exception path alike. -/
def export_group (env : ExportEnv) (selection : List String) (group : ExportGroup)
    (settings : FBXSettings) : ExportRun :=
  let name := group.name
  let set_name := group.set_name
  if !fbx_settings_validate env.fs settings then
    { success := false, message := "Invalid settings", ops := [],
      finalSelection := selection }
  else if set_name = "" || !object_exists env.scene set_name then
    { success := false, message := "Export set does not exist for " ++ name,
      ops := [], finalSelection := selection }
  else
    let set_members := env.scene.members set_name
    if set_members = [] then
      { success := false, message := "No objects in group " ++ name,
        ops := [], finalSelection := selection }
    else
      let dirOps := if !env.fs.pathExists settings.export_directory then
        [SceneOp.makedirs settings.export_directory] else []
      if !env.fs.pathExists settings.export_directory &&
          !env.fs.makedirsOk settings.export_directory then
        { success := false, message := "Could not create directory", ops := dirOps,
          finalSelection := selection }
      else
        let previous_selection := selection
        let applied := apply_settings env settings
        if !applied.1 then
          { success := false, message := "Error exporting group " ++ name,
            ops := dirOps ++ [.getSelection] ++ applied.2 ++
              restoreOps previous_selection,
            finalSelection := previous_selection }
        else
          let exportCmd := "FBXExport -f \"" ++ export_path_of settings name ++ "\" -s"
          if env.melOk exportCmd then
            { success := true, message := "Exported " ++ name,
              ops := dirOps ++ [.getSelection] ++ applied.2 ++
                [.select set_members, .evalMel exportCmd] ++
                restoreOps previous_selection,
              finalSelection := previous_selection }
          else
            { success := false, message := "Error exporting group " ++ name,
              ops := dirOps ++ [.getSelection] ++ applied.2 ++
                [.select set_members, .evalMel exportCmd] ++
                restoreOps previous_selection,
              finalSelection := previous_selection }

/-- The per-group record aggregated by the export service. -/
structure ExportResultRec where
  group_name : String
  success : Bool
  message : String
deriving DecidableEq

/-- ExportService.export_single_group (also returns the selection afterward,
to thread the shared Scene Store selection through a batch). -/
def export_single_group (env : ExportEnv) (selection : List String)
    (group : ExportGroup) (settings : FBXSettings) : ExportResultRec × List String :=
  let run := export_group env selection group settings
  ({ group_name := group.name, success := run.success, message := run.message },
   run.finalSelection)

/-- The loop of ExportService.export_all_groups: one group at a time,
continue on error. -/
def export_all_aux (env : ExportEnv) (settings : FBXSettings) :
    List ExportGroup → List String → List ExportResultRec
  | [], _ => []
  | g :: gs, selection =>
    let r := export_single_group env selection g settings
    r.1 :: export_all_aux env settings gs r.2

/-- ExportService.export_all_groups: the per-group result list and the count
of successes. -/
def export_all_groups (env : ExportEnv) (selection : List String)
    (groups : List ExportGroup) (settings : FBXSettings) :
    List ExportResultRec × Nat :=
  let results := export_all_aux env settings groups selection
  (results, (results.filter (fun r => r.success)).length)

/-- C5: for every group and every settings object failing settings validation
(an empty outputDirectory in particular makes validation fail), export_group
returns success = false and no selection-mutating Scene Store call is issued
— the selection is untouched before validation passes. -/
theorem export_invalid_settings_no_selection (env : ExportEnv) (selection : List String)
    (group : ExportGroup) (settings : FBXSettings)
    (h : fbx_settings_validate env.fs settings = false) :
    (export_group env selection group settings).success = false ∧
    (export_group env selection group settings).ops = [] ∧
    ∀ op ∈ (export_group env selection group settings).ops, op.isSelection = false := by
  unfold export_group
  rw [if_pos (by simp [h])]
  exact ⟨rfl, rfl, by simp⟩

/-- Empty outputDirectory always fails settings validation. -/
theorem empty_directory_fails_validation (fs : FileSys) (settings : FBXSettings)
    (h : settings.export_directory = "") : fbx_settings_validate fs settings = false := by
  unfold fbx_settings_validate
  simp [h]

/-- C5 witness: concrete settings with an empty outputDirectory. -/
theorem export_invalid_settings_witness :
    (export_group ⟨⟨["batchExport_A"], [], fun _ => ["cube1"], true⟩,
        ⟨fun _ => true, fun _ => false, fun _ => true⟩, fun _ => true⟩
      ["prior"] ⟨"A", "batchExport_A"⟩ ⟨"Y", false, "cm", "", ""⟩).success = false ∧
    (export_group ⟨⟨["batchExport_A"], [], fun _ => ["cube1"], true⟩,
        ⟨fun _ => true, fun _ => false, fun _ => true⟩, fun _ => true⟩
      ["prior"] ⟨"A", "batchExport_A"⟩ ⟨"Y", false, "cm", "", ""⟩).ops = [] ∧
    ∀ op ∈ (export_group ⟨⟨["batchExport_A"], [], fun _ => ["cube1"], true⟩,
        ⟨fun _ => true, fun _ => false, fun _ => true⟩, fun _ => true⟩
      ["prior"] ⟨"A", "batchExport_A"⟩ ⟨"Y", false, "cm", "", ""⟩).ops,
      op.isSelection = false :=
  export_invalid_settings_no_selection _ _ _ _ (by decide)

/-- C6: every run that reaches the selection-mutating phase (validation,
backing set, membership and directory checks all pass) restores the captured
prior selection before returning, on the success path and on the exception
path alike: the final selection equals the prior one and the run ends with
the restore call. -/
theorem export_restores_selection (env : ExportEnv) (selection : List String)
    (group : ExportGroup) (settings : FBXSettings)
    (hval : fbx_settings_validate env.fs settings = true)
    (hset : group.set_name ≠ "")
    (hex : object_exists env.scene group.set_name = true)
    (hmem : env.scene.members group.set_name ≠ [])
    (hdir : env.fs.pathExists settings.export_directory = true ∨
            env.fs.makedirsOk settings.export_directory = true) :
    (export_group env selection group settings).finalSelection = selection ∧
    ∃ pre, (export_group env selection group settings).ops =
      pre ++ restoreOps selection := by
  simp only [export_group]
  rw [if_neg (by simp [hval])]
  rw [if_neg (by simp [hset, hex])]
  rw [if_neg (by simpa using hmem)]
  rw [if_neg (by rcases hdir with h | h <;> simp [h])]
  by_cases hap : (apply_settings env settings).1 = true
  · rw [if_neg (by simp [hap])]
    by_cases hm : env.melOk
        ("FBXExport -f \"" ++ export_path_of settings group.name ++ "\" -s") = true
    · rw [if_pos hm]
      exact ⟨rfl, _, rfl⟩
    · rw [if_neg hm]
      exact ⟨rfl, _, rfl⟩
  · rw [if_pos (by simp [Bool.not_eq_true] at hap; simp [hap])]
    exact ⟨rfl, _, rfl⟩

/-- C6 witness: a concrete run whose FBX export command fails (the exception
path) still restores the prior selection. -/
theorem export_restores_selection_witness :
    (export_group ⟨⟨["batchExport_A"], [], fun _ => ["cube1"], true⟩,
        ⟨fun _ => true, fun _ => false, fun _ => true⟩,
        fun c => !(pyStartsWith "FBXExport -f" c)⟩
      ["prior"] ⟨"A", "batchExport_A"⟩ ⟨"Y", false, "cm", "/tmp/out", ""⟩).finalSelection =
      ["prior"] ∧
    ∃ pre, (export_group ⟨⟨["batchExport_A"], [], fun _ => ["cube1"], true⟩,
        ⟨fun _ => true, fun _ => false, fun _ => true⟩,
        fun c => !(pyStartsWith "FBXExport -f" c)⟩
      ["prior"] ⟨"A", "batchExport_A"⟩ ⟨"Y", false, "cm", "/tmp/out", ""⟩).ops =
      pre ++ restoreOps ["prior"] :=
  export_restores_selection _ _ _ _ (by decide) (by decide) (by decide) (by decide)
    (Or.inl (by decide))

/-! ## Lemmas for the batch export -/

theorem runMelCommands_ok (env : ExportEnv) (hmel : ∀ c, env.melOk c = true) :
    ∀ cmds, (runMelCommands env cmds).1 = true := by
  intro cmds
  induction cmds with
  | nil => rfl
  | cons c rest ih => simp [runMelCommands, hmel c, ih]

/-- A group whose backing set exists with raw non-empty membership. -/
def groupOkay (env : ExportEnv) (g : ExportGroup) : Prop :=
  g.set_name ≠ "" ∧ object_exists env.scene g.set_name = true ∧
  env.scene.members g.set_name ≠ []

theorem export_group_success (env : ExportEnv) (selection : List String)
    (group : ExportGroup) (settings : FBXSettings)
    (hval : fbx_settings_validate env.fs settings = true)
    (hok : groupOkay env group)
    (hdir : env.fs.pathExists settings.export_directory = true)
    (hmel : ∀ c, env.melOk c = true) :
    (export_group env selection group settings).success = true := by
  obtain ⟨h1, h2, h3⟩ := hok
  simp only [export_group]
  rw [if_neg (by simp [hval])]
  rw [if_neg (by simp [h1, h2])]
  rw [if_neg (by simpa using h3)]
  rw [if_neg (by simp [hdir])]
  have hap : (apply_settings env settings).1 = true := by
    unfold apply_settings
    rw [if_pos hval]
    exact runMelCommands_ok env hmel _
  rw [if_neg (by simp [hap])]
  rw [if_pos (hmel _)]

theorem export_group_no_set (env : ExportEnv) (selection : List String)
    (group : ExportGroup) (settings : FBXSettings)
    (hval : fbx_settings_validate env.fs settings = true)
    (hbad : group.set_name = "" ∨ object_exists env.scene group.set_name = false) :
    (export_group env selection group settings).success = false := by
  simp only [export_group]
  rw [if_neg (by simp [hval])]
  rw [if_pos (by rcases hbad with h | h <;> simp [h])]

theorem export_all_aux_length (env : ExportEnv) (settings : FBXSettings) :
    ∀ (gs : List ExportGroup) (selection : List String),
    (export_all_aux env settings gs selection).length = gs.length := by
  intro gs
  induction gs with
  | nil => intro selection; rfl
  | cons g rest ih => intro selection; simp [export_all_aux, ih]

theorem export_all_aux_all_good (env : ExportEnv) (settings : FBXSettings)
    (hval : fbx_settings_validate env.fs settings = true)
    (hdir : env.fs.pathExists settings.export_directory = true)
    (hmel : ∀ c, env.melOk c = true) :
    ∀ (gs : List ExportGroup) (selection : List String),
    (∀ g ∈ gs, groupOkay env g) →
    (∀ i, i < gs.length →
      ((export_all_aux env settings gs selection).getD i ⟨"", false, ""⟩).success = true) ∧
    ((export_all_aux env settings gs selection).filter (fun r => r.success)).length =
      gs.length := by
  intro gs
  induction gs with
  | nil => intro selection _; exact ⟨fun i hi => by simp at hi, rfl⟩
  | cons g rest ih =>
    intro selection hgood
    have hhead : (export_group env selection g settings).success = true :=
      export_group_success env selection g settings hval
        (hgood g (List.mem_cons_self g rest)) hdir hmel
    obtain ⟨ihA, ihB⟩ := ih (export_single_group env selection g settings).2
      (fun g' hg' => hgood g' (List.mem_cons_of_mem g hg'))
    constructor
    · intro i hi
      cases i with
      | zero =>
        simp only [export_all_aux, List.getD_cons_zero]
        exact hhead
      | succ j =>
        simp only [export_all_aux, List.getD_cons_succ]
        exact ihA j (by simpa using hi)
    · simp only [export_all_aux]
      rw [List.filter_cons_of_pos (by exact hhead)]
      simp [ihB]

theorem export_all_aux_one_failure (env : ExportEnv) (settings : FBXSettings)
    (hval : fbx_settings_validate env.fs settings = true)
    (hdir : env.fs.pathExists settings.export_directory = true)
    (hmel : ∀ c, env.melOk c = true) :
    ∀ (gs : List ExportGroup) (selection : List String) (k : Nat),
    k < gs.length →
    object_exists env.scene (gs.getD k ⟨"", ""⟩).set_name = false →
    (∀ i, i < gs.length → i ≠ k → groupOkay env (gs.getD i ⟨"", ""⟩)) →
    ((export_all_aux env settings gs selection).getD k ⟨"", true, ""⟩).success = false ∧
    (∀ i, i < gs.length → i ≠ k →
      ((export_all_aux env settings gs selection).getD i ⟨"", false, ""⟩).success = true) ∧
    ((export_all_aux env settings gs selection).filter (fun r => r.success)).length =
      gs.length - 1 := by
  intro gs
  induction gs with
  | nil => intro selection k hk; simp at hk
  | cons g rest ih =>
    intro selection k hk hbad hgood
    cases k with
    | zero =>
      have hhead : (export_group env selection g settings).success = false := by
        apply export_group_no_set env selection g settings hval
        right
        simpa using hbad
      have hrest : ∀ g' ∈ rest, groupOkay env g' := by
        intro g' hg'
        obtain ⟨j, hj, hje⟩ := List.mem_iff_getElem.mp hg'
        have := hgood (j+1) (by simpa using hj) (by omega)
        rw [List.getD_cons_succ, List.getD_eq_getElem _ _ hj, hje] at this
        exact this
      obtain ⟨allA, allB⟩ := export_all_aux_all_good env settings hval hdir hmel rest
        (export_single_group env selection g settings).2 hrest
      refine ⟨?_, ?_, ?_⟩
      · simp only [export_all_aux, List.getD_cons_zero]
        exact hhead
      · intro i hi hne
        cases i with
        | zero => exact absurd rfl hne
        | succ j =>
          simp only [export_all_aux, List.getD_cons_succ]
          exact allA j (by simpa using hi)
      · simp only [export_all_aux]
        rw [List.filter_cons_of_neg (by simp [export_single_group, hhead])]
        simp [allB]
    | succ j =>
      have hhead : (export_group env selection g settings).success = true := by
        apply export_group_success env selection g settings hval ?_ hdir hmel
        have := hgood 0 (by simp) (by omega)
        simpa using this
      have hjlen : j < rest.length := by simpa using hk
      obtain ⟨ihA, ihB, ihC⟩ := ih (export_single_group env selection g settings).2 j hjlen
        (by
          have := hbad
          rwa [List.getD_cons_succ] at this)
        (by
          intro i hi hne
          have := hgood (i+1) (by simp only [List.length_cons]; omega) (by omega)
          rwa [List.getD_cons_succ] at this)
      refine ⟨?_, ?_, ?_⟩
      · simp only [export_all_aux, List.getD_cons_succ]
        exact ihA
      · intro i hi hne
        cases i with
        | zero =>
          simp only [export_all_aux, List.getD_cons_zero]
          exact hhead
        | succ j' =>
          simp only [export_all_aux, List.getD_cons_succ]
          exact ihB j' (by simpa using hi) (by omega)
      · simp only [export_all_aux]
        rw [List.filter_cons_of_pos (by exact hhead)]
        simp only [List.length_cons, ihC]
        omega

/-- C7: with valid settings, an existing output directory and a working
exporter, a batch over N groups where exactly group k has no backing set is
sequential and continue-on-error: it yields N per-group results, result k
fails, every other result succeeds, and successCount = N - 1. -/
theorem export_all_continues_past_failure
    (env : ExportEnv) (selection : List String) (groups : List ExportGroup)
    (settings : FBXSettings) (k : Nat)
    (hval : fbx_settings_validate env.fs settings = true)
    (hdir : env.fs.pathExists settings.export_directory = true)
    (hmel : ∀ c, env.melOk c = true)
    (hk : k < groups.length)
    (hbad : object_exists env.scene (groups.getD k ⟨"", ""⟩).set_name = false)
    (hgood : ∀ i, i < groups.length → i ≠ k → groupOkay env (groups.getD i ⟨"", ""⟩)) :
    (export_all_groups env selection groups settings).1.length = groups.length ∧
    ((export_all_groups env selection groups settings).1.getD k ⟨"", true, ""⟩).success =
      false ∧
    (∀ i, i < groups.length → i ≠ k →
      ((export_all_groups env selection groups settings).1.getD i
        ⟨"", false, ""⟩).success = true) ∧
    (export_all_groups env selection groups settings).2 = groups.length - 1 := by
  obtain ⟨hA, hB, hC⟩ := export_all_aux_one_failure env settings hval hdir hmel groups
    selection k hk hbad hgood
  exact ⟨export_all_aux_length env settings groups selection, hA, hB, hC⟩

/-- A three-group batch environment where only the middle group lacks a
backing set. -/
def batchDemoEnv : ExportEnv :=
  ⟨⟨["batchExport_A", "batchExport_C"], [], fun _ => ["cube1"], true⟩,
   ⟨fun _ => true, fun _ => false, fun _ => true⟩, fun _ => true⟩

def batchDemoGroups : List ExportGroup :=
  [⟨"A", "batchExport_A"⟩, ⟨"B", "batchExport_B"⟩, ⟨"C", "batchExport_C"⟩]

def batchDemoSettings : FBXSettings := ⟨"Y", false, "cm", "/tmp/out", ""⟩

/-- C7 witness: three groups, group 1 without a backing set; the batch yields
three results, result 1 fails, result 0 succeeds, and the success count is 2. -/
theorem export_all_continues_witness :
    (export_all_groups batchDemoEnv [] batchDemoGroups batchDemoSettings).1.length =
      batchDemoGroups.length ∧
    ((export_all_groups batchDemoEnv [] batchDemoGroups batchDemoSettings).1.getD 1
      ⟨"", true, ""⟩).success = false ∧
    ((export_all_groups batchDemoEnv [] batchDemoGroups batchDemoSettings).1.getD 0
      ⟨"", false, ""⟩).success = true ∧
    (export_all_groups batchDemoEnv [] batchDemoGroups batchDemoSettings).2 =
      batchDemoGroups.length - 1 := by
  have h := export_all_continues_past_failure batchDemoEnv [] batchDemoGroups
    batchDemoSettings 1 (by decide) (by decide) (fun c => rfl) (by decide) (by decide)
    (by
      intro i hi hne
      have hi3 : i < 3 := by simpa [batchDemoGroups] using hi
      interval_cases i
      · exact ⟨by decide, by decide, by decide⟩
      · exact absurd rfl hne
      · exact ⟨by decide, by decide, by decide⟩)
  exact ⟨h.1, h.2.1, h.2.2.1 0 (by decide) (by decide), h.2.2.2⟩

/-! ## persistence.py: the validation stage of JsonConfigRepository.load
(the parsed JSON value is the input; path checks and JSON parsing happen
before it and also fail the load) -/

inductive Json where
  | null
  | bool (b : Bool)
  | num (n : Int)
  | str (s : String)
  | arr (items : List Json)
  | obj (fields : List (String × Json))

/-- Key lookup in a parsed JSON object. -/
def lookupField (fields : List (String × Json)) (k : String) : Option Json :=
  (fields.find? (fun p => p.1 == k)).map (fun p => p.2)

def requiredSettings : List String :=
  ["up_axis", "triangulate", "convert_unit", "export_directory", "file_prefix"]

/-- Python "field in value": key lookup for a dict, element equality for a
list, substring for a string; none models the TypeError other values raise. -/
def pyIn (field : String) : Json → Option Bool
  | .obj fields => some (lookupField fields field).isSome
  | .arr items => some (items.any (fun j =>
      match j with
      | .str s => s == field
      | _ => false))
  | .str s => some (hasSub field.data s.data)
  | _ => none

/-- The missing_fields comprehension over data["fbx_settings"]; a TypeError
from the membership test aborts it. -/
def missingFields (fbx : Json) : List String → Except String (List String)
  | [] => .ok []
  | f :: rest =>
    match pyIn f fbx with
    | none => .error "TypeError"
    | some b =>
      match missingFields fbx rest with
      | .error e => .error e
      | .ok ms => .ok (if b then ms else f :: ms)

/-- The strict-validation stage of JsonConfigRepository.load: requires a
dictionary with export_groups, fbx_settings and all five settings fields, and
defaults a missing expanded_groups to the empty list (appended as a new key);
every failure surfaces as a DataPersistenceError with nothing loaded. -/
def load_validate (data : Json) : Except String Json :=
  match data with
  | .obj fields =>
    if (lookupField fields "export_groups").isNone then
      .error "Invalid configuration: missing export_groups field"
    else if (lookupField fields "fbx_settings").isNone then
      .error "Invalid configuration: missing fbx_settings field"
    else
      match lookupField fields "fbx_settings" with
      | none => .error "Invalid configuration: missing fbx_settings field"
      | some fbx =>
        match missingFields fbx requiredSettings with
        | .error e => .error e
        | .ok ms =>
          if ms ≠ [] then .error "Invalid configuration: missing FBX settings fields"
          else if (lookupField fields "expanded_groups").isNone then
            .ok (.obj (fields ++ [("expanded_groups", .arr [])]))
          else .ok (.obj fields)
  | _ => .error "Invalid configuration format: expected dictionary"

/-- Whether the load failed (a DataPersistenceError was raised). -/
def exceptIsError : Except String Json → Bool
  | .error _ => true
  | .ok _ => false

theorem missingFields_obj (sfields : List (String × Json)) (fs : List String) :
    missingFields (.obj sfields) fs =
      .ok (fs.filter (fun f => (lookupField sfields f).isNone)) := by
  induction fs with
  | nil => rfl
  | cons f rest ih =>
    simp only [missingFields, pyIn, ih]
    by_cases h : (lookupField sfields f).isSome
    · have h2 : (lookupField sfields f).isNone = false := by
        rcases hx : lookupField sfields f with _ | v
        · rw [hx] at h; simp at h
        · rfl
      simp [h, h2]
    · have h2 : (lookupField sfields f).isNone = true := by
        rcases hx : lookupField sfields f with _ | v
        · rfl
        · rw [hx] at h; simp at h
      simp [h, h2]

/-- C8: the load fails, raising a persistence error with nothing loaded, for
every parsed configuration missing export_groups, fbx_settings, or any of the
five settings fields; a missing expanded_groups alone does not fail the load
but is defaulted to the empty list. -/
theorem load_validate_spec (fields : List (String × Json)) :
    ((lookupField fields "export_groups").isNone = true →
      exceptIsError (load_validate (.obj fields)) = true) ∧
    ((lookupField fields "fbx_settings").isNone = true →
      exceptIsError (load_validate (.obj fields)) = true) ∧
    (∀ sfields, lookupField fields "fbx_settings" = some (.obj sfields) →
      (∃ f ∈ requiredSettings, (lookupField sfields f).isNone = true) →
      exceptIsError (load_validate (.obj fields)) = true) ∧
    (∀ sfields, (lookupField fields "export_groups").isSome = true →
      lookupField fields "fbx_settings" = some (.obj sfields) →
      (∀ f ∈ requiredSettings, (lookupField sfields f).isSome = true) →
      (lookupField fields "expanded_groups").isNone = true →
      load_validate (.obj fields) =
        .ok (.obj (fields ++ [("expanded_groups", Json.arr [])]))) := by
  refine ⟨?_, ?_, ?_, ?_⟩
  · intro h
    simp only [load_validate, if_pos h]
    rfl
  · intro h
    by_cases h1 : (lookupField fields "export_groups").isNone = true
    · simp only [load_validate, if_pos h1]
      rfl
    · simp only [load_validate, if_neg h1, if_pos h]
      rfl
  · rintro sfields hfbx ⟨f, hf, hmiss⟩
    by_cases h1 : (lookupField fields "export_groups").isNone = true
    · simp only [load_validate, if_pos h1]
      rfl
    · have h2 : ¬ (lookupField fields "fbx_settings").isNone = true := by
        rw [hfbx]
        simp
      have hne : (requiredSettings.filter
          (fun f => (lookupField sfields f).isNone)) ≠ [] := by
        intro hnil
        have hmem : f ∈ requiredSettings.filter
            (fun f => (lookupField sfields f).isNone) :=
          List.mem_filter.mpr ⟨hf, by simpa using hmiss⟩
        rw [hnil] at hmem
        simp at hmem
      simp only [load_validate, if_neg h1, if_neg h2, hfbx, missingFields_obj]
      rw [if_pos hne]
      rfl
  · intro sfields hexp hfbx hall hexpanded
    have h1 : ¬ (lookupField fields "export_groups").isNone = true := by
      rcases hx : lookupField fields "export_groups" with _ | v
      · rw [hx] at hexp; simp at hexp
      · simp
    have h2 : ¬ (lookupField fields "fbx_settings").isNone = true := by
      rw [hfbx]
      simp
    have hnil : (requiredSettings.filter
        (fun f => (lookupField sfields f).isNone)) = [] := by
      rw [List.filter_eq_nil_iff]
      intro f hf
      have := hall f hf
      rcases hx : lookupField sfields f with _ | v
      · rw [hx] at this; simp at this
      · simp
    simp only [load_validate, if_neg h1, if_neg h2, hfbx, missingFields_obj, hnil,
      if_pos hexpanded]
    simp

def goodSettingsFields : List (String × Json) :=
  [("up_axis", .str "Y"), ("triangulate", .bool false), ("convert_unit", .str "cm"),
   ("export_directory", .str "/tmp/out"), ("file_prefix", .str "")]

/-- C8 witness: concrete configurations exercising each clause — missing
export_groups, missing fbx_settings, a missing settings field, and a complete
file without expanded_groups that loads with the empty-list default. -/
theorem load_validate_witness :
    exceptIsError (load_validate (.obj [("fbx_settings", .obj goodSettingsFields)])) =
      true ∧
    exceptIsError (load_validate (.obj [("export_groups", .arr [])])) = true ∧
    exceptIsError (load_validate (.obj [("export_groups", .arr []),
      ("fbx_settings", .obj [("up_axis", .str "Y")])])) = true ∧
    load_validate (.obj [("export_groups", .arr []),
        ("fbx_settings", .obj goodSettingsFields)]) =
      .ok (.obj ([("export_groups", .arr []), ("fbx_settings", .obj goodSettingsFields)] ++
        [("expanded_groups", .arr [])])) :=
  ⟨(load_validate_spec [("fbx_settings", .obj goodSettingsFields)]).1 rfl,
   (load_validate_spec [("export_groups", .arr [])]).2.1 rfl,
   (load_validate_spec [("export_groups", .arr []),
      ("fbx_settings", .obj [("up_axis", .str "Y")])]).2.2.1
      [("up_axis", .str "Y")] rfl ⟨"triangulate", by decide, rfl⟩,
   (load_validate_spec [("export_groups", .arr []),
      ("fbx_settings", .obj goodSettingsFields)]).2.2.2
      goodSettingsFields rfl rfl (by decide) rfl⟩
